import Mathlib

/-!
Verification of the secp256k1 / HD-wallet core of the vechain SDK.

The executable definitions below are shallow embeddings of the TypeScript
sources (`packages/core/src/secp256k1/secp256k1.ts`,
`packages/core/src/vcdm/Address.ts`, `packages/errors/src/helpers/decorators.ts`)
together with the elliptic-curve mathematics of the `@noble/curves` secp256k1
backend those sources delegate to.  Buffers are modelled as `List ℕ` of byte
values, thrown exceptions as `Except`, and 256-bit integer arithmetic as `ℕ`
with explicit reductions modulo the field prime and the curve order.

Hash primitives (SHA-256, HMAC-SHA512) and the BIP-39 word list are consumed
by the repository as opaque collaborators; wherever they matter they appear as
explicit parameters.  The HD-derivation and mnemonic layers, whose sources are
not part of the excerpt, are modelled from the specification and are marked as
such in their doc comments.
-/

/-! ### Fast modular exponentiation

The kernel-friendly square-and-multiply used for all field/scalar
exponentiations (Fermat inversions, Tonelli square roots, Lucas certificates).
-/

/-- Square-and-multiply modular power with an explicit structural fuel. -/
def powModAux : ℕ → ℕ → ℕ → ℕ → ℕ
  | 0, _, _, m => 1 % m
  | fuel+1, a, e, m =>
    if e = 0 then 1 % m
    else
      let r := powModAux fuel (a * a % m) (e / 2) m
      if e % 2 = 1 then r * a % m else r

/-- Modular power `a ^ e % m`. -/
def powMod (a e m : ℕ) : ℕ := powModAux e (a % m) e m

theorem powModAux_eq (m : ℕ) :
    ∀ fuel e a, e ≤ fuel → powModAux fuel a e m = a ^ e % m := by
  intro fuel
  induction fuel with
  | zero =>
    intro e a he
    interval_cases e
    simp [powModAux]
  | succ n ih =>
    intro e a he
    rcases Nat.eq_zero_or_pos e with he0 | hepos
    · subst he0; simp [powModAux]
    · have hne : e ≠ 0 := Nat.pos_iff_ne_zero.mp hepos
      have hrec : e / 2 ≤ n := by
        have h2 : e / 2 < e := Nat.div_lt_self hepos (by norm_num)
        omega
      have ihr := ih (e / 2) (a * a % m) hrec
      have hsq : (a * a % m) ^ (e / 2) % m = (a * a) ^ (e / 2) % m := by
        rw [Nat.pow_mod, Nat.mod_mod, ← Nat.pow_mod]
      have hps : (a * a) ^ (e / 2) = a ^ (2 * (e / 2)) := by
        rw [two_mul, pow_add, ← pow_two, ← pow_mul, pow_mul]
        ring
      rcases Nat.even_or_odd e with heven | hodd
      · have h2 : e % 2 = 0 := Nat.even_iff.mp heven
        have hrewrite : 2 * (e / 2) = e := by omega
        rw [powModAux, if_neg hne]
        simp only [h2, Nat.zero_ne_one, if_false]
        rw [ihr, hsq, hps, hrewrite]
      · have h2 : e % 2 = 1 := Nat.odd_iff.mp hodd
        have hrewrite : 2 * (e / 2) + 1 = e := by omega
        rw [powModAux, if_neg hne]
        simp only [h2, if_true]
        rw [ihr, hsq, hps, Nat.mod_mul_mod, ← pow_succ, hrewrite]

theorem powMod_eq (a e m : ℕ) : powMod a e m = a ^ e % m := by
  unfold powMod
  rw [powModAux_eq m e e (a % m) le_rfl, Nat.pow_mod, Nat.mod_mod, ← Nat.pow_mod]

/-! ### Byte sequences

`Buffer`/`Uint8Array` values are modelled as `List ℕ`, most significant byte
first, matching the big-endian encodings used throughout the sources.
-/

/-- Big-endian interpretation of a byte sequence as a natural number. -/
def beNat (bs : List ℕ) : ℕ := bs.foldl (fun acc b => acc * 256 + b) 0

/-- Fixed-width big-endian encoding of a natural number, most significant
byte first; mirrors `new BN(x).toArray(be, width)`. -/
def natToBytes : ℕ → ℕ → List ℕ
  | 0, _ => []
  | w+1, x => natToBytes w (x / 256) ++ [x % 256]

/-- Bytes of value `0 … 255`, the invariant every real `Buffer` satisfies. -/
def ByteBounded (bs : List ℕ) : Prop := ∀ b ∈ bs, b < 256

theorem natToBytes_length (w x : ℕ) : (natToBytes w x).length = w := by
  induction w generalizing x with
  | zero => simp [natToBytes]
  | succ n ih => simp [natToBytes, ih]

theorem beNat_foldl (ys : List ℕ) :
    ∀ acc, List.foldl (fun acc b => acc * 256 + b) acc ys =
      acc * 256 ^ ys.length + beNat ys := by
  induction ys with
  | nil => intro acc; simp [beNat]
  | cons y ys ih =>
    intro acc
    have h1 : beNat (y :: ys) = y * 256 ^ ys.length + beNat ys := by
      show List.foldl (fun acc b => acc * 256 + b) (0 * 256 + y) ys = _
      rw [ih (0 * 256 + y)]
      ring
    simp only [List.foldl_cons, List.length_cons]
    rw [ih (acc * 256 + y), h1]
    ring

theorem beNat_append (xs ys : List ℕ) :
    beNat (xs ++ ys) = beNat xs * 256 ^ ys.length + beNat ys := by
  show List.foldl _ 0 (xs ++ ys) = _
  rw [List.foldl_append, beNat_foldl ys]
  rfl

theorem beNat_natToBytes (w x : ℕ) (hx : x < 256 ^ w) :
    beNat (natToBytes w x) = x := by
  induction w generalizing x with
  | zero =>
    interval_cases x
    simp [natToBytes, beNat]
  | succ n ih =>
    have hdiv : x / 256 < 256 ^ n := by
      rw [Nat.div_lt_iff_lt_mul (by norm_num)]
      calc x < 256 ^ (n + 1) := hx
        _ = 256 ^ n * 256 := by ring
    simp only [natToBytes]
    rw [beNat_append, ih (x / 256) hdiv]
    simp [beNat]
    omega

theorem natToBytes_bounded (w x : ℕ) : ByteBounded (natToBytes w x) := by
  induction w generalizing x with
  | zero => intro b hb; simp [natToBytes] at hb
  | succ n ih =>
    intro b hb
    simp only [natToBytes, List.mem_append, List.mem_singleton] at hb
    rcases hb with hb | hb
    · exact ih (x / 256) b hb
    · subst hb; exact Nat.mod_lt _ (by norm_num)

theorem beNat_lt (bs : List ℕ) (hb : ByteBounded bs) : beNat bs < 256 ^ bs.length := by
  induction bs using List.reverseRecOn with
  | nil => simp [beNat]
  | append_singleton xs x ih =>
    have hx : x < 256 := hb x (by simp)
    have hxs : beNat xs < 256 ^ xs.length := ih fun b hbmem => hb b (by simp [hbmem])
    have : beNat (xs ++ [x]) = beNat xs * 256 + x := by
      rw [beNat_append]; simp [beNat]
    rw [this, List.length_append]
    calc beNat xs * 256 + x < beNat xs * 256 + 256 := by omega
      _ = (beNat xs + 1) * 256 := by ring
      _ ≤ 256 ^ xs.length * 256 := by
          have : beNat xs + 1 ≤ 256 ^ xs.length := hxs
          exact Nat.mul_le_mul_right _ this
      _ = 256 ^ (xs.length + 1) := by ring

theorem beNat_eq_zero_iff (bs : List ℕ) :
    beNat bs = 0 ↔ bs = List.replicate bs.length 0 := by
  induction bs with
  | nil => simp [beNat]
  | cons x xs ih =>
    have hcons : beNat (x :: xs) = x * 256 ^ xs.length + beNat xs := by
      show List.foldl (fun acc b => acc * 256 + b) (0 * 256 + x) xs = _
      rw [beNat_foldl xs (0 * 256 + x)]
      ring
    rw [hcons]
    have hpow : 0 < 256 ^ xs.length := Nat.pos_pow_of_pos _ (by norm_num)
    constructor
    · intro h
      have hx : x = 0 := by
        rcases Nat.eq_zero_or_pos x with h0 | h0
        · exact h0
        · exfalso
          have : 0 < x * 256 ^ xs.length := Nat.mul_pos h0 hpow
          omega
      have hxs : beNat xs = 0 := by omega
      simp only [List.length_cons, List.replicate_succ]
      rw [hx]
      exact List.cons_eq_cons.mpr ⟨rfl, ih.mp hxs⟩
    · intro h
      simp only [List.length_cons, List.replicate_succ, List.cons_eq_cons] at h
      rw [h.1, ih.mpr h.2]
      ring

theorem beNat_cons (x : ℕ) (xs : List ℕ) :
    beNat (x :: xs) = x * 256 ^ xs.length + beNat xs := by
  show List.foldl (fun acc b => acc * 256 + b) (0 * 256 + x) xs = _
  rw [beNat_foldl xs (0 * 256 + x)]
  ring

/-! ### secp256k1 constants

The field prime, the curve order, and the base point of secp256k1, together
with the byte-level constants appearing in `secp256k1.ts`.
-/

/-- Order of the secp256k1 group, the number the source stores big-endian in
its `PRIVATE_KEY_MAX_VALUE` buffer. -/
def Nsec : ℕ := 115792089237316195423570985008687907852837564279074904382605163141518161494337

/-- Field prime of secp256k1. -/
def Psec : ℕ := 115792089237316195423570985008687907853269984665640564039457584007908834671663

/-- Abscissa of the secp256k1 base point. -/
def Gx : ℕ := 55066263022277343669578718895168534326250603453777594175500187360389116729240

/-- Ordinate of the secp256k1 base point. -/
def Gy : ℕ := 32670510020758816978083085130507043184471273380659243275938904335757337482424

/-- Embedding of the `ZERO_BUFFER(n)` helper of the source utilities. -/
def ZERO_BUFFER (n : ℕ) : List ℕ := List.replicate n 0

/-- Embedding of the 32-byte `PRIVATE_KEY_MAX_VALUE` constant of
`secp256k1.ts`, the big-endian bytes of the curve order. -/
def PRIVATE_KEY_MAX_VALUE : List ℕ :=
  [255, 255, 255, 255, 255, 255, 255, 255, 255, 255, 255, 255, 255, 255, 255, 254,
   186, 174, 220, 230, 175, 72, 160, 59, 191, 210, 94, 140, 208, 54, 65, 65]

theorem beNat_PRIVATE_KEY_MAX_VALUE : beNat PRIVATE_KEY_MAX_VALUE = Nsec := by decide

theorem length_PRIVATE_KEY_MAX_VALUE : PRIVATE_KEY_MAX_VALUE.length = 32 := by decide

theorem byteBounded_iff (bs : List ℕ) :
    ByteBounded bs ↔ (bs.all fun b => decide (b < 256)) = true := by
  rw [List.all_eq_true]
  unfold ByteBounded
  constructor
  · intro h b hb; exact decide_eq_true (h b hb)
  · intro h b hb; exact of_decide_eq_true (h b hb)

theorem byteBounded_PRIVATE_KEY_MAX_VALUE : ByteBounded PRIVATE_KEY_MAX_VALUE :=
  (byteBounded_iff _).mpr (by decide)

/-- Embedding of node `Buffer.compare`: byte-wise lexicographic ordering. -/
def bufCompare : List ℕ → List ℕ → Ordering
  | [], [] => .eq
  | [], _ :: _ => .lt
  | _ :: _, [] => .gt
  | a :: as, b :: bs =>
    if a < b then .lt else if b < a then .gt else bufCompare as bs

theorem bufCompare_lt_iff :
    ∀ as bs : List ℕ, as.length = bs.length → ByteBounded as → ByteBounded bs →
      (bufCompare as bs = .lt ↔ beNat as < beNat bs) := by
  intro as
  induction as with
  | nil =>
    intro bs hlen _ _
    cases bs with
    | nil => simp [bufCompare, beNat]
    | cons b bs => simp at hlen
  | cons a as ih =>
    intro bs hlen ha hb
    cases bs with
    | nil => simp at hlen
    | cons b bs =>
      have hlen2 : as.length = bs.length := by simpa using hlen
      have haa : a < 256 := ha a (by simp)
      have hbb : b < 256 := hb b (by simp)
      have haas : ByteBounded as := fun x hx => ha x (by simp [hx])
      have hbbs : ByteBounded bs := fun x hx => hb x (by simp [hx])
      have hasb : beNat as < 256 ^ as.length := beNat_lt as haas
      have hbsb : beNat bs < 256 ^ bs.length := beNat_lt bs hbbs
      rw [beNat_cons, beNat_cons, ← hlen2]
      rcases Nat.lt_trichotomy a b with hab | hab | hab
      · have : bufCompare (a :: as) (b :: bs) = .lt := by
          simp [bufCompare, hab]
        rw [this]
        have hnum : a * 256 ^ as.length + beNat as < b * 256 ^ as.length + beNat bs := by
          calc a * 256 ^ as.length + beNat as < a * 256 ^ as.length + 256 ^ as.length := by omega
            _ = (a + 1) * 256 ^ as.length := by ring
            _ ≤ b * 256 ^ as.length := Nat.mul_le_mul_right _ (by omega)
            _ ≤ b * 256 ^ as.length + beNat bs := Nat.le_add_right _ _
        simp [hnum]
      · subst hab
        have : bufCompare (a :: as) (a :: bs) = bufCompare as bs := by
          simp [bufCompare]
        rw [this, ih bs hlen2 haas hbbs]
        omega
      · have : bufCompare (a :: as) (b :: bs) = .gt := by
          simp [bufCompare, hab, Nat.not_lt.mpr (Nat.le_of_lt hab)]
        rw [this]
        have hnum : b * 256 ^ as.length + beNat bs < a * 256 ^ as.length + beNat as := by
          calc b * 256 ^ as.length + beNat bs < b * 256 ^ as.length + 256 ^ as.length := by
                rw [hlen2]; omega
            _ = (b + 1) * 256 ^ as.length := by ring
            _ ≤ a * 256 ^ as.length := Nat.mul_le_mul_right _ (by omega)
            _ ≤ a * 256 ^ as.length + beNat as := Nat.le_add_right _ _
        constructor
        · intro h; exact absurd h (by simp)
        · intro h; omega

/-! ### Validation predicates of `secp256k1.ts` -/

/-- Embedding of `isValidMessageHash`: a 32-byte buffer.  The
`Buffer.isBuffer` conjunct of the source holds for every modelled buffer. -/
def isValidMessageHash (hash : List ℕ) : Bool := hash.length == 32

/-- Embedding of `isValidPrivateKey`: 32 bytes, not the zero buffer, and
lexicographically below `PRIVATE_KEY_MAX_VALUE`. -/
def isValidPrivateKey (privateKey : List ℕ) : Bool :=
  privateKey.length == 32 &&
  !(privateKey == ZERO_BUFFER 32) &&
  decide (bufCompare privateKey PRIVATE_KEY_MAX_VALUE = Ordering.lt)

theorem isValidPrivateKey_iff (k : List ℕ) (hk : ByteBounded k) :
    isValidPrivateKey k = true ↔ k.length = 32 ∧ 0 < beNat k ∧ beNat k < Nsec := by
  unfold isValidPrivateKey
  simp only [Bool.and_eq_true, beq_iff_eq, Bool.not_eq_true', beq_eq_false_iff_ne, ne_eq,
    decide_eq_true_iff]
  constructor
  · rintro ⟨⟨hlen, hnz⟩, hlt⟩
    refine ⟨hlen, ?_, ?_⟩
    · rcases Nat.eq_zero_or_pos (beNat k) with h0 | h0
      · exfalso
        apply hnz
        have := (beNat_eq_zero_iff k).mp h0
        rwa [hlen] at this
      · exact h0
    · rw [← beNat_PRIVATE_KEY_MAX_VALUE]
      exact (bufCompare_lt_iff k PRIVATE_KEY_MAX_VALUE
        (by rw [hlen, length_PRIVATE_KEY_MAX_VALUE]) hk
        byteBounded_PRIVATE_KEY_MAX_VALUE).mp hlt
  · rintro ⟨hlen, hpos, hlt⟩
    refine ⟨⟨hlen, ?_⟩, ?_⟩
    · intro hz
      rw [show ZERO_BUFFER 32 = List.replicate 32 0 from rfl, ← hlen] at hz
      have := (beNat_eq_zero_iff k).mpr hz
      omega
    · apply (bufCompare_lt_iff k PRIVATE_KEY_MAX_VALUE
        (by rw [hlen, length_PRIVATE_KEY_MAX_VALUE]) hk
        byteBounded_PRIVATE_KEY_MAX_VALUE).mpr
      rwa [beNat_PRIVATE_KEY_MAX_VALUE]

/-! ### Elliptic-curve arithmetic over the secp256k1 field

The repository delegates curve arithmetic to the `@noble/curves` secp256k1
backend.  The functions below embed that arithmetic at the level of affine
coordinates: a point is `none` (the point at infinity) or `some (x, y)` with
`x y : ℕ` reduced modulo `Psec`.  Field inversion follows Fermat, square roots
use the `p ≡ 3 (mod 4)` exponent `(p+1)/4` exactly as the backend does.  The
scalar-multiplication ladder carries arithmetically trivial guards of the form
`k + t * 0 = 0`; they only force the kernel to evaluate coordinates level by
level, and `pMulAux_eq_pMulC` rewrites the ladder into its guard-free form for
all proofs.
-/

/-- Field inversion modulo `Psec` by Fermat. -/
def finv (a : ℕ) : ℕ := powMod a (Psec - 2) Psec

/-- Subtraction modulo `Psec`. -/
def fsub (a b : ℕ) : ℕ := (a + (Psec - b % Psec)) % Psec

/-- Affine doubling of a secp256k1 point. -/
def pDouble : Option (ℕ × ℕ) → Option (ℕ × ℕ)
  | none => none
  | some (x, y) =>
    if y = 0 then none
    else
      let L := (3 * (x * x % Psec) % Psec) * finv (2 * y % Psec) % Psec
      let x3 := fsub (L * L % Psec) ((x + x) % Psec)
      some (x3, fsub (L * fsub x x3 % Psec) y)

/-- Affine addition of two secp256k1 points. -/
def pAddN : Option (ℕ × ℕ) → Option (ℕ × ℕ) → Option (ℕ × ℕ)
  | none, q => q
  | p, none => p
  | some (x1, y1), some (x2, y2) =>
    if x1 = x2 then
      if (y1 + y2) % Psec = 0 then none
      else pDouble (some (x1, y1))
    else
      let L := fsub y1 y2 * finv (fsub x1 x2) % Psec
      let x3 := fsub (L * L % Psec) ((x1 + x2) % Psec)
      some (x3, fsub (L * fsub x1 x3 % Psec) y1)

/-- Binary double-and-add ladder with evaluation-forcing guards. -/
def pMulAux : ℕ → ℕ → Option (ℕ × ℕ) → Option (ℕ × ℕ) → Option (ℕ × ℕ)
  | 0, _, _, acc => acc
  | fuel+1, k, base, acc =>
    match base, acc with
    | none, acc2 => if k = 0 then acc2 else pMulAux fuel (k / 2) none acc2
    | some (bx, by2), none =>
        if k + (bx + by2) * 0 = 0 then none
        else pMulAux fuel (k / 2) (pDouble (some (bx, by2)))
          (if k % 2 = 1 then some (bx, by2) else none)
    | some (bx, by2), some (ax, ay) =>
        if k + (bx + by2 + ax + ay) * 0 = 0 then some (ax, ay)
        else pMulAux fuel (k / 2) (pDouble (some (bx, by2)))
          (if k % 2 = 1 then pAddN (some (ax, ay)) (some (bx, by2)) else some (ax, ay))

/-- Scalar multiplication `k · p` on secp256k1. -/
def pMulN (k : ℕ) (p : Option (ℕ × ℕ)) : Option (ℕ × ℕ) := pMulAux k k p none

/-- Guard-free form of the ladder, used by every proof. -/
def pMulC : ℕ → ℕ → Option (ℕ × ℕ) → Option (ℕ × ℕ) → Option (ℕ × ℕ)
  | 0, _, _, acc => acc
  | fuel+1, k, base, acc =>
    if k = 0 then acc
    else pMulC fuel (k / 2) (pDouble base)
      (if k % 2 = 1 then pAddN acc base else acc)

theorem pAddN_none_right (p : Option (ℕ × ℕ)) : pAddN p none = p := by
  cases p with
  | none => rfl
  | some q => cases q; rfl

theorem pMulAux_eq_pMulC :
    ∀ fuel k base acc, pMulAux fuel k base acc = pMulC fuel k base acc := by
  intro fuel
  induction fuel with
  | zero => intro k base acc; rfl
  | succ n ih =>
    intro k base acc
    cases base with
    | none =>
      cases acc with
      | none =>
        simp only [pMulAux, pMulC, pDouble, pAddN]
        by_cases hk : k = 0
        · simp [hk]
        · simp only [if_neg hk, ih]
          congr 1
          split <;> rfl
      | some a =>
        cases a with
        | mk ax ay =>
          simp only [pMulAux, pMulC, pDouble]
          by_cases hk : k = 0
          · simp [hk]
          · simp only [if_neg hk, ih]
            congr 1
            split <;> simp [pAddN]
    | some b =>
      cases b with
      | mk bx by2 =>
        cases acc with
        | none =>
          simp only [pMulAux, pMulC, Nat.mul_zero, Nat.add_zero]
          by_cases hk : k = 0
          · simp [hk]
          · simp only [if_neg hk, ih]
            congr 1
        | some a =>
          cases a with
          | mk ax ay =>
            simp only [pMulAux, pMulC, Nat.mul_zero, Nat.add_zero]
            by_cases hk : k = 0
            · simp [hk]
            · simp only [if_neg hk, ih]

/-- Base point of secp256k1 as an affine point. -/
def Gpt : Option (ℕ × ℕ) := some (Gx, Gy)

/-! ### Point encodings

The byte serialisations used by the backend `toRawBytes`: 65 bytes with tag 4
for uncompressed points, 33 bytes with tag 2 or 3 for compressed points.
-/

/-- Uncompressed serialisation `04 ‖ x ‖ y`. -/
def uncompressedEncode (pt : ℕ × ℕ) : List ℕ :=
  4 :: (natToBytes 32 pt.1 ++ natToBytes 32 pt.2)

/-- Compressed serialisation `(02 + parity of y) ‖ x`. -/
def compressedEncode (pt : ℕ × ℕ) : List ℕ :=
  (2 + pt.2 % 2) :: natToBytes 32 pt.1

theorem powMod_lt (a e m : ℕ) (hm : 0 < m) : powMod a e m < m := by
  rw [powMod_eq]
  exact Nat.mod_lt _ hm

/-- Abscissa cube plus seven, the right-hand side of the curve equation,
computed at byte level. -/
def uOf (xv : ℕ) : ℕ := (xv * xv % Psec * xv + 7) % Psec

/-- Candidate square root computed with the `p ≡ 3 (mod 4)` exponent. -/
def cOf (xv : ℕ) : ℕ := powMod (uOf xv) ((Psec + 1) / 4) Psec

theorem uOf_lt (xv : ℕ) : uOf xv < Psec := Nat.mod_lt _ (by decide)

theorem cOf_lt (xv : ℕ) : cOf xv < Psec := powMod_lt _ _ _ (by decide)

/-- Embedding of the backend decompression (`Point.fromHex` on 33 bytes):
recovers the ordinate with parity given by the tag byte, rejecting byte
sequences that do not denote a curve point. -/
def decompressPoint (bs : List ℕ) : Option (ℕ × ℕ) :=
  if bs.length = 33 ∧ (bs.headD 0 = 2 ∨ bs.headD 0 = 3) then
    let x := beNat (bs.drop 1)
    if x < Psec then
      if cOf x * cOf x % Psec = uOf x then
        some (x, if cOf x % 2 = (bs.headD 0) % 2 then cOf x else (Psec - cOf x) % Psec)
      else none
    else none
  else none

/-! ### The `secp256k1.ts` operations

Each exported function of `secp256k1.ts` becomes an `Except`-valued function;
the error constructors mirror the error kinds the assertions of the source
raise.  `LibraryError` stands for the plain exceptions thrown inside the
curve backend itself, which the wrapper simply propagates.
-/

/-- Error kinds raised by the embedded operations. -/
inductive SdkError where
  | InvalidMessageHash
  | InvalidPrivateKey
  | InvalidSignature
  | InvalidSignatureRecovery
  | InvalidHDNode
  | InvalidHDNodeMnemonic
  | InvalidDataType
  | LibraryError
  deriving DecidableEq

instance {α β : Type} [DecidableEq α] [DecidableEq β] : DecidableEq (Except α β) :=
  fun a b =>
    match a, b with
    | .ok x, .ok y =>
      if h : x = y then .isTrue (h ▸ rfl) else .isFalse fun he => h (Except.ok.inj he)
    | .error x, .error y =>
      if h : x = y then .isTrue (h ▸ rfl) else .isFalse fun he => h (Except.error.inj he)
    | .ok _, .error _ => .isFalse fun he => Except.noConfusion he
    | .error _, .ok _ => .isFalse fun he => Except.noConfusion he

/-- Embedding of `derivePublicKey` of `secp256k1.ts`: validity assertion, then
the backend `getPublicKey`, whose default compression flag is `true` in the
source.  The flag is passed explicitly here. -/
def derivePublicKey (privateKey : List ℕ) (isCompressed : Bool) :
    Except SdkError (List ℕ) :=
  if isValidPrivateKey privateKey then
    match pMulN (beNat privateKey) Gpt with
    | none => .error .LibraryError
    | some pt => .ok (if isCompressed then compressedEncode pt else uncompressedEncode pt)
  else .error .InvalidPrivateKey

/-- Embedding of the deterministic-nonce ECDSA loop of the curve backend: each
candidate nonce produced by the RFC 6979 generator (abstracted as the list
`nonces`, since the repository consumes its hash primitives as opaque
collaborators) is rejected unless it lies in `[1, Nsec)` and yields nonzero
`r` and `s`; the signature is normalised to a low `s`, flipping the parity
bit of the recovery id accordingly.
`sOf` is the scalar `s = kN⁻¹ · (z + r·d) mod n` before normalisation,
`recOf` the recovery id before the flip (bit 1 set when `r` overflowed the
order, bit 0 the parity of the nonce point's `y`), and `SigOf` the 65 bytes
`r ‖ s ‖ recovery` of an accepted nonce `kN` with nonce point `(rx, ry)`. -/
def sOf (z d kN rx : ℕ) : ℕ :=
  powMod kN (Nsec - 2) Nsec * ((z + rx % Nsec * d) % Nsec) % Nsec

def recOf (rx ry : ℕ) : ℕ :=
  (if rx % Nsec = rx then 0 else 2) + ry % 2

def SigOf (z d kN rx ry : ℕ) : List ℕ :=
  if Nsec / 2 < sOf z d kN rx then
    natToBytes 32 (rx % Nsec) ++
      (natToBytes 32 (Nsec - sOf z d kN rx) ++ [recOf rx ry ^^^ 1])
  else
    natToBytes 32 (rx % Nsec) ++
      (natToBytes 32 (sOf z d kN rx) ++ [recOf rx ry])

def signLoop (z d : ℕ) : List ℕ → Except SdkError (List ℕ)
  | [] => .error .LibraryError
  | k :: ks =>
    if k = 0 ∨ Nsec ≤ k then signLoop z d ks
    else
      match pMulN k Gpt with
      | none => signLoop z d ks
      | some rpt =>
        let r := rpt.1 % Nsec
        if r = 0 then signLoop z d ks
        else
          let s := sOf z d k rpt.1
          if s = 0 then signLoop z d ks
          else .ok (SigOf z d k rpt.1 rpt.2)

/-- Embedding of `sign` of `secp256k1.ts`: the message-hash assertion, the
private-key assertion, then the backend signature re-encoded as the 65 bytes
`r ‖ s ‖ recovery`. -/
def sign (messageHash privateKey : List ℕ) (nonces : List ℕ) :
    Except SdkError (List ℕ) :=
  if isValidMessageHash messageHash then
    if isValidPrivateKey privateKey then
      signLoop (beNat messageHash % Nsec) (beNat privateKey) nonces
    else .error .InvalidPrivateKey
  else .error .InvalidMessageHash

/-- Embedding of `recover` of `secp256k1.ts`: the message-hash assertion, the
65-byte signature assertion, the recovery-byte assertion, then the backend
`recoverPublicKey` returned uncompressed. -/
def recover (messageHash sig : List ℕ) : Except SdkError (List ℕ) :=
  if isValidMessageHash messageHash then
    if sig.length = 65 then
      let recId := sig.getD 64 0
      if recId = 0 ∨ recId = 1 then
        let r := beNat (sig.take 32)
        let s := beNat ((sig.drop 32).take 32)
        if r = 0 ∨ Nsec ≤ r ∨ s = 0 ∨ Nsec ≤ s then .error .LibraryError
        else
          match decompressPoint ((2 + recId) :: natToBytes 32 r) with
          | none => .error .LibraryError
          | some rpt =>
            let z := beNat messageHash % Nsec
            let ir := powMod r (Nsec - 2) Nsec
            let u1 := (Nsec - z) % Nsec * ir % Nsec
            let u2 := s * ir % Nsec
            match pAddN (pMulN u1 Gpt) (pMulN u2 (some rpt)) with
            | none => .error .LibraryError
            | some qpt => .ok (uncompressedEncode qpt)
      else .error .InvalidSignatureRecovery
    else .error .InvalidSignature
  else .error .InvalidMessageHash

/-- Embedding of `compressPublicKey` of `secp256k1.ts`: inputs whose first
byte is `4` are re-encoded from the slices `[1, 33)` and `[33, 65)`; every
other input is returned unchanged. -/
def compressPublicKey (publicKey : List ℕ) : List ℕ :=
  if publicKey.head? = some 4 then
    let x := (publicKey.drop 1).take 32
    let y := (publicKey.drop 33).take 32
    let isYOdd := (y.getLast?.getD 0) % 2
    (2 + isYOdd) :: x
  else publicKey

/-! ### Primality certificates

Lucas certificates for the secp256k1 field prime and group order, one node
per prime in the certificate tree.  All modular powers are evaluated through
`powMod`, which the kernel can reduce efficiently.
-/

set_option maxRecDepth 100000

set_option maxHeartbeats 2000000

theorem zmodPow_powMod (p a e : ℕ) :
    ((a : ℕ) : ZMod p) ^ e = ((powMod a e p : ℕ) : ZMod p) := by
  rw [powMod_eq, ZMod.natCast_mod, Nat.cast_pow]

theorem zmod_pow_eq_one (p a : ℕ) (h : powMod a (p - 1) p % p = 1 % p) :
    ((a : ℕ) : ZMod p) ^ (p - 1) = 1 := by
  rw [zmodPow_powMod]
  have hc := (ZMod.natCast_eq_natCast_iff (powMod a (p - 1) p) 1 p).mpr h
  rw [hc, Nat.cast_one]

theorem zmod_pow_ne_one (p a e : ℕ) (h : powMod a e p % p ≠ 1 % p) :
    ((a : ℕ) : ZMod p) ^ e ≠ 1 := by
  rw [zmodPow_powMod]
  intro hc
  apply h
  exact (ZMod.natCast_eq_natCast_iff (powMod a e p) 1 p).mp (by rw [hc, Nat.cast_one])

theorem prime_cert_3 : Nat.Prime 3 := by norm_num

theorem prime_cert_5 : Nat.Prime 5 := by norm_num

theorem prime_cert_7 : Nat.Prime 7 := by norm_num

theorem prime_cert_11 : Nat.Prime 11 := by norm_num

theorem prime_cert_13 : Nat.Prime 13 := by norm_num

theorem prime_cert_17 : Nat.Prime 17 := by norm_num

theorem prime_cert_19 : Nat.Prime 19 := by norm_num

theorem prime_cert_23 : Nat.Prime 23 := by norm_num

theorem prime_cert_29 : Nat.Prime 29 := by norm_num

theorem prime_cert_31 : Nat.Prime 31 := by norm_num

theorem prime_cert_37 : Nat.Prime 37 := by norm_num

theorem prime_cert_41 : Nat.Prime 41 := by norm_num

theorem prime_cert_53 : Nat.Prime 53 := by norm_num

theorem prime_cert_59 : Nat.Prime 59 := by norm_num

theorem prime_cert_67 : Nat.Prime 67 := by norm_num

theorem prime_cert_73 : Nat.Prime 73 := by norm_num

theorem prime_cert_83 : Nat.Prime 83 := by norm_num

theorem prime_cert_97 : Nat.Prime 97 := by norm_num

theorem prime_cert_101 : Nat.Prime 101 := by norm_num

theorem prime_cert_103 : Nat.Prime 103 := by norm_num

theorem prime_cert_109 : Nat.Prime 109 := by norm_num

theorem prime_cert_113 : Nat.Prime 113 := by norm_num

theorem prime_cert_131 : Nat.Prime 131 := by norm_num

theorem prime_cert_149 : Nat.Prime 149 := by norm_num

theorem prime_cert_199 : Nat.Prime 199 := by norm_num

theorem prime_cert_239 : Nat.Prime 239 := by norm_num

theorem prime_cert_271 : Nat.Prime 271 := by norm_num

theorem prime_cert_293 : Nat.Prime 293 := by norm_num

theorem prime_cert_419 : Nat.Prime 419 := by norm_num

theorem prime_cert_443 : Nat.Prime 443 := by norm_num

theorem prime_cert_461 : Nat.Prime 461 := by norm_num

theorem prime_cert_631 : Nat.Prime 631 := by norm_num

theorem prime_cert_797 : Nat.Prime 797 := by norm_num

theorem prime_cert_887 : Nat.Prime 887 := by norm_num

theorem prime_cert_971 : Nat.Prime 971 := by norm_num

theorem prime_cert_1373 : Nat.Prime 1373 := by norm_num

theorem prime_cert_1409 : Nat.Prime 1409 := by norm_num

theorem prime_cert_1627 : Nat.Prime 1627 := by norm_num

theorem prime_cert_1871 : Nat.Prime 1871 := by norm_num

theorem prime_cert_2011 : Nat.Prime 2011 := by norm_num

theorem prime_cert_2621 : Nat.Prime 2621 := by norm_num

theorem prime_cert_2657 : Nat.Prime 2657 := by norm_num

theorem prime_cert_2731 : Nat.Prime 2731 := by norm_num

theorem prime_cert_2861 : Nat.Prime 2861 := by norm_num

theorem prime_cert_4051 : Nat.Prime 4051 := by norm_num

theorem prime_cert_4423 : Nat.Prime 4423 := by norm_num

theorem prime_cert_5323 : Nat.Prime 5323 := by norm_num

theorem prime_cert_7723 : Nat.Prime 7723 := by norm_num

theorem prime_cert_9349 : Nat.Prime 9349 := by norm_num

theorem prime_cert_13441 : Nat.Prime 13441 := by norm_num

theorem prime_cert_16699 : Nat.Prime 16699 := by norm_num

theorem prime_cert_20113 : Nat.Prime 20113 := by norm_num

theorem prime_cert_24809 : Nat.Prime 24809 := by norm_num

theorem prime_cert_28181 : Nat.Prime 28181 := by norm_num

theorem prime_cert_41201 : Nat.Prime 41201 := by norm_num

theorem prime_cert_85831 : Nat.Prime 85831 := by norm_num

theorem prime_cert_96557 : Nat.Prime 96557 := by norm_num

theorem prime_cert_120233 : Nat.Prime 120233 := by norm_num

theorem prime_cert_305873 : Nat.Prime 305873 := by norm_num

theorem prime_cert_1206781 : Nat.Prime 1206781 := by
  refine lucas_primality 1206781 ((10 : ℕ) : ZMod 1206781) (zmod_pow_eq_one _ _ (by decide)) ?_
  intro q hq hdvd
  have hfac : (1206781 : ℕ) - 1 = 2 ^ 2 * (3 * (5 * (20113))) := by decide
  rw [hfac] at hdvd
  rcases (Nat.Prime.dvd_mul hq).mp hdvd with h | hdvd
  · replace h := Nat.Prime.dvd_of_dvd_pow hq h
    rw [(Nat.prime_dvd_prime_iff_eq hq Nat.prime_two).mp h]
    exact zmod_pow_ne_one _ _ _ (by decide)
  rcases (Nat.Prime.dvd_mul hq).mp hdvd with h | hdvd
  · rw [(Nat.prime_dvd_prime_iff_eq hq prime_cert_3).mp h]
    exact zmod_pow_ne_one _ _ _ (by decide)
  rcases (Nat.Prime.dvd_mul hq).mp hdvd with h | hdvd
  · rw [(Nat.prime_dvd_prime_iff_eq hq prime_cert_5).mp h]
    exact zmod_pow_ne_one _ _ _ (by decide)
  rw [(Nat.prime_dvd_prime_iff_eq hq prime_cert_20113).mp hdvd]
  exact zmod_pow_ne_one _ _ _ (by decide)

theorem prime_cert_1627771 : Nat.Prime 1627771 := by
  refine lucas_primality 1627771 ((3 : ℕ) : ZMod 1627771) (zmod_pow_eq_one _ _ (by decide)) ?_
  intro q hq hdvd
  have hfac : (1627771 : ℕ) - 1 = 2 ^ 1 * (3 * (5 * (29 * (1871)))) := by decide
  rw [hfac] at hdvd
  rcases (Nat.Prime.dvd_mul hq).mp hdvd with h | hdvd
  · replace h := Nat.Prime.dvd_of_dvd_pow hq h
    rw [(Nat.prime_dvd_prime_iff_eq hq Nat.prime_two).mp h]
    exact zmod_pow_ne_one _ _ _ (by decide)
  rcases (Nat.Prime.dvd_mul hq).mp hdvd with h | hdvd
  · rw [(Nat.prime_dvd_prime_iff_eq hq prime_cert_3).mp h]
    exact zmod_pow_ne_one _ _ _ (by decide)
  rcases (Nat.Prime.dvd_mul hq).mp hdvd with h | hdvd
  · rw [(Nat.prime_dvd_prime_iff_eq hq prime_cert_5).mp h]
    exact zmod_pow_ne_one _ _ _ (by decide)
  rcases (Nat.Prime.dvd_mul hq).mp hdvd with h | hdvd
  · rw [(Nat.prime_dvd_prime_iff_eq hq prime_cert_29).mp h]
    exact zmod_pow_ne_one _ _ _ (by decide)
  rw [(Nat.prime_dvd_prime_iff_eq hq prime_cert_1871).mp hdvd]
  exact zmod_pow_ne_one _ _ _ (by decide)

theorem prime_cert_4681609 : Nat.Prime 4681609 := by
  refine lucas_primality 4681609 ((23 : ℕ) : ZMod 4681609) (zmod_pow_eq_one _ _ (by decide)) ?_
  intro q hq hdvd
  have hfac : (4681609 : ℕ) - 1 = 2 ^ 3 * (3 * (97 * (2011))) := by decide
  rw [hfac] at hdvd
  rcases (Nat.Prime.dvd_mul hq).mp hdvd with h | hdvd
  · replace h := Nat.Prime.dvd_of_dvd_pow hq h
    rw [(Nat.prime_dvd_prime_iff_eq hq Nat.prime_two).mp h]
    exact zmod_pow_ne_one _ _ _ (by decide)
  rcases (Nat.Prime.dvd_mul hq).mp hdvd with h | hdvd
  · rw [(Nat.prime_dvd_prime_iff_eq hq prime_cert_3).mp h]
    exact zmod_pow_ne_one _ _ _ (by decide)
  rcases (Nat.Prime.dvd_mul hq).mp hdvd with h | hdvd
  · rw [(Nat.prime_dvd_prime_iff_eq hq prime_cert_97).mp h]
    exact zmod_pow_ne_one _ _ _ (by decide)
  rw [(Nat.prime_dvd_prime_iff_eq hq prime_cert_2011).mp hdvd]
  exact zmod_pow_ne_one _ _ _ (by decide)

theorem prime_cert_7240687 : Nat.Prime 7240687 := by
  refine lucas_primality 7240687 ((3 : ℕ) : ZMod 7240687) (zmod_pow_eq_one _ _ (by decide)) ?_
  intro q hq hdvd
  have hfac : (7240687 : ℕ) - 1 = 2 ^ 1 * (3 * (1206781)) := by decide
  rw [hfac] at hdvd
  rcases (Nat.Prime.dvd_mul hq).mp hdvd with h | hdvd
  · replace h := Nat.Prime.dvd_of_dvd_pow hq h
    rw [(Nat.prime_dvd_prime_iff_eq hq Nat.prime_two).mp h]
    exact zmod_pow_ne_one _ _ _ (by decide)
  rcases (Nat.Prime.dvd_mul hq).mp hdvd with h | hdvd
  · rw [(Nat.prime_dvd_prime_iff_eq hq prime_cert_3).mp h]
    exact zmod_pow_ne_one _ _ _ (by decide)
  rw [(Nat.prime_dvd_prime_iff_eq hq prime_cert_1206781).mp hdvd]
  exact zmod_pow_ne_one _ _ _ (by decide)

theorem prime_cert_13331831 : Nat.Prime 13331831 := by
  refine lucas_primality 13331831 ((13 : ℕ) : ZMod 13331831) (zmod_pow_eq_one _ _ (by decide)) ?_
  intro q hq hdvd
  have hfac : (13331831 : ℕ) - 1 = 2 ^ 1 * (5 * (971 * (1373))) := by decide
  rw [hfac] at hdvd
  rcases (Nat.Prime.dvd_mul hq).mp hdvd with h | hdvd
  · replace h := Nat.Prime.dvd_of_dvd_pow hq h
    rw [(Nat.prime_dvd_prime_iff_eq hq Nat.prime_two).mp h]
    exact zmod_pow_ne_one _ _ _ (by decide)
  rcases (Nat.Prime.dvd_mul hq).mp hdvd with h | hdvd
  · rw [(Nat.prime_dvd_prime_iff_eq hq prime_cert_5).mp h]
    exact zmod_pow_ne_one _ _ _ (by decide)
  rcases (Nat.Prime.dvd_mul hq).mp hdvd with h | hdvd
  · rw [(Nat.prime_dvd_prime_iff_eq hq prime_cert_971).mp h]
    exact zmod_pow_ne_one _ _ _ (by decide)
  rw [(Nat.prime_dvd_prime_iff_eq hq prime_cert_1373).mp hdvd]
  exact zmod_pow_ne_one _ _ _ (by decide)

theorem prime_cert_44706919 : Nat.Prime 44706919 := by
  refine lucas_primality 44706919 ((6 : ℕ) : ZMod 44706919) (zmod_pow_eq_one _ _ (by decide)) ?_
  intro q hq hdvd
  have hfac : (44706919 : ℕ) - 1 = 2 ^ 1 * (3 * (797 * (9349))) := by decide
  rw [hfac] at hdvd
  rcases (Nat.Prime.dvd_mul hq).mp hdvd with h | hdvd
  · replace h := Nat.Prime.dvd_of_dvd_pow hq h
    rw [(Nat.prime_dvd_prime_iff_eq hq Nat.prime_two).mp h]
    exact zmod_pow_ne_one _ _ _ (by decide)
  rcases (Nat.Prime.dvd_mul hq).mp hdvd with h | hdvd
  · rw [(Nat.prime_dvd_prime_iff_eq hq prime_cert_3).mp h]
    exact zmod_pow_ne_one _ _ _ (by decide)
  rcases (Nat.Prime.dvd_mul hq).mp hdvd with h | hdvd
  · rw [(Nat.prime_dvd_prime_iff_eq hq prime_cert_797).mp h]
    exact zmod_pow_ne_one _ _ _ (by decide)
  rw [(Nat.prime_dvd_prime_iff_eq hq prime_cert_9349).mp hdvd]
  exact zmod_pow_ne_one _ _ _ (by decide)

theorem prime_cert_107590001 : Nat.Prime 107590001 := by
  refine lucas_primality 107590001 ((3 : ℕ) : ZMod 107590001) (zmod_pow_eq_one _ _ (by decide)) ?_
  intro q hq hdvd
  have hfac : (107590001 : ℕ) - 1 = 2 ^ 4 * (5 ^ 4 * (7 * (29 * 53))) := by decide
  rw [hfac] at hdvd
  rcases (Nat.Prime.dvd_mul hq).mp hdvd with h | hdvd
  · replace h := Nat.Prime.dvd_of_dvd_pow hq h
    rw [(Nat.prime_dvd_prime_iff_eq hq Nat.prime_two).mp h]
    exact zmod_pow_ne_one _ _ _ (by decide)
  rcases (Nat.Prime.dvd_mul hq).mp hdvd with h | hdvd
  · replace h := Nat.Prime.dvd_of_dvd_pow hq h
    rw [(Nat.prime_dvd_prime_iff_eq hq prime_cert_5).mp h]
    exact zmod_pow_ne_one _ _ _ (by decide)
  rcases (Nat.Prime.dvd_mul hq).mp hdvd with h | hdvd
  · rw [(Nat.prime_dvd_prime_iff_eq hq prime_cert_7).mp h]
    exact zmod_pow_ne_one _ _ _ (by decide)
  rcases (Nat.Prime.dvd_mul hq).mp hdvd with h | hdvd
  · rw [(Nat.prime_dvd_prime_iff_eq hq prime_cert_29).mp h]
    exact zmod_pow_ne_one _ _ _ (by decide)
  rw [(Nat.prime_dvd_prime_iff_eq hq prime_cert_53).mp hdvd]
  exact zmod_pow_ne_one _ _ _ (by decide)

theorem prime_cert_545358713 : Nat.Prime 545358713 := by
  refine lucas_primality 545358713 ((5 : ℕ) : ZMod 545358713) (zmod_pow_eq_one _ _ (by decide)) ?_
  intro q hq hdvd
  have hfac : (545358713 : ℕ) - 1 = 2 ^ 3 * (41 * (59 * 28181)) := by decide
  rw [hfac] at hdvd
  rcases (Nat.Prime.dvd_mul hq).mp hdvd with h | hdvd
  · replace h := Nat.Prime.dvd_of_dvd_pow hq h
    rw [(Nat.prime_dvd_prime_iff_eq hq Nat.prime_two).mp h]
    exact zmod_pow_ne_one _ _ _ (by decide)
  rcases (Nat.Prime.dvd_mul hq).mp hdvd with h | hdvd
  · rw [(Nat.prime_dvd_prime_iff_eq hq prime_cert_41).mp h]
    exact zmod_pow_ne_one _ _ _ (by decide)
  rcases (Nat.Prime.dvd_mul hq).mp hdvd with h | hdvd
  · rw [(Nat.prime_dvd_prime_iff_eq hq prime_cert_59).mp h]
    exact zmod_pow_ne_one _ _ _ (by decide)
  rw [(Nat.prime_dvd_prime_iff_eq hq prime_cert_28181).mp hdvd]
  exact zmod_pow_ne_one _ _ _ (by decide)

theorem prime_cert_297159362677 : Nat.Prime 297159362677 := by
  refine lucas_primality 297159362677 ((2 : ℕ) : ZMod 297159362677) (zmod_pow_eq_one _ _ (by decide)) ?_
  intro q hq hdvd
  have hfac : (297159362677 : ℕ) - 1 = 2 ^ 2 * (3 ^ 2 * (11 * (461 * 1627771))) := by decide
  rw [hfac] at hdvd
  rcases (Nat.Prime.dvd_mul hq).mp hdvd with h | hdvd
  · replace h := Nat.Prime.dvd_of_dvd_pow hq h
    rw [(Nat.prime_dvd_prime_iff_eq hq Nat.prime_two).mp h]
    exact zmod_pow_ne_one _ _ _ (by decide)
  rcases (Nat.Prime.dvd_mul hq).mp hdvd with h | hdvd
  · replace h := Nat.Prime.dvd_of_dvd_pow hq h
    rw [(Nat.prime_dvd_prime_iff_eq hq prime_cert_3).mp h]
    exact zmod_pow_ne_one _ _ _ (by decide)
  rcases (Nat.Prime.dvd_mul hq).mp hdvd with h | hdvd
  · rw [(Nat.prime_dvd_prime_iff_eq hq prime_cert_11).mp h]
    exact zmod_pow_ne_one _ _ _ (by decide)
  rcases (Nat.Prime.dvd_mul hq).mp hdvd with h | hdvd
  · rw [(Nat.prime_dvd_prime_iff_eq hq prime_cert_461).mp h]
    exact zmod_pow_ne_one _ _ _ (by decide)
  rw [(Nat.prime_dvd_prime_iff_eq hq prime_cert_1627771).mp hdvd]
  exact zmod_pow_ne_one _ _ _ (by decide)

theorem prime_cert_107361793816595537 : Nat.Prime 107361793816595537 := by
  refine lucas_primality 107361793816595537 ((3 : ℕ) : ZMod 107361793816595537) (zmod_pow_eq_one _ _ (by decide)) ?_
  intro q hq hdvd
  have hfac : (107361793816595537 : ℕ) - 1 = 2 ^ 4 * (16699 * (85831 * 4681609)) := by decide
  rw [hfac] at hdvd
  rcases (Nat.Prime.dvd_mul hq).mp hdvd with h | hdvd
  · replace h := Nat.Prime.dvd_of_dvd_pow hq h
    rw [(Nat.prime_dvd_prime_iff_eq hq Nat.prime_two).mp h]
    exact zmod_pow_ne_one _ _ _ (by decide)
  rcases (Nat.Prime.dvd_mul hq).mp hdvd with h | hdvd
  · rw [(Nat.prime_dvd_prime_iff_eq hq prime_cert_16699).mp h]
    exact zmod_pow_ne_one _ _ _ (by decide)
  rcases (Nat.Prime.dvd_mul hq).mp hdvd with h | hdvd
  · rw [(Nat.prime_dvd_prime_iff_eq hq prime_cert_85831).mp h]
    exact zmod_pow_ne_one _ _ _ (by decide)
  rw [(Nat.prime_dvd_prime_iff_eq hq prime_cert_4681609).mp hdvd]
  exact zmod_pow_ne_one _ _ _ (by decide)

theorem prime_cert_173378833005251801 : Nat.Prime 173378833005251801 := by
  refine lucas_primality 173378833005251801 ((6 : ℕ) : ZMod 173378833005251801) (zmod_pow_eq_one _ _ (by decide)) ?_
  intro q hq hdvd
  have hfac : (173378833005251801 : ℕ) - 1 = 2 ^ 3 * (5 ^ 2 * (2621 * (24809 * 13331831))) := by decide
  rw [hfac] at hdvd
  rcases (Nat.Prime.dvd_mul hq).mp hdvd with h | hdvd
  · replace h := Nat.Prime.dvd_of_dvd_pow hq h
    rw [(Nat.prime_dvd_prime_iff_eq hq Nat.prime_two).mp h]
    exact zmod_pow_ne_one _ _ _ (by decide)
  rcases (Nat.Prime.dvd_mul hq).mp hdvd with h | hdvd
  · replace h := Nat.Prime.dvd_of_dvd_pow hq h
    rw [(Nat.prime_dvd_prime_iff_eq hq prime_cert_5).mp h]
    exact zmod_pow_ne_one _ _ _ (by decide)
  rcases (Nat.Prime.dvd_mul hq).mp hdvd with h | hdvd
  · rw [(Nat.prime_dvd_prime_iff_eq hq prime_cert_2621).mp h]
    exact zmod_pow_ne_one _ _ _ (by decide)
  rcases (Nat.Prime.dvd_mul hq).mp hdvd with h | hdvd
  · rw [(Nat.prime_dvd_prime_iff_eq hq prime_cert_24809).mp h]
    exact zmod_pow_ne_one _ _ _ (by decide)
  rw [(Nat.prime_dvd_prime_iff_eq hq prime_cert_13331831).mp hdvd]
  exact zmod_pow_ne_one _ _ _ (by decide)

theorem prime_cert_174723607534414371449 : Nat.Prime 174723607534414371449 := by
  refine lucas_primality 174723607534414371449 ((3 : ℕ) : ZMod 174723607534414371449) (zmod_pow_eq_one _ _ (by decide)) ?_
  intro q hq hdvd
  have hfac : (174723607534414371449 : ℕ) - 1 = 2 ^ 3 * (17 * (59 * (4051 * (120233 * 44706919)))) := by decide
  rw [hfac] at hdvd
  rcases (Nat.Prime.dvd_mul hq).mp hdvd with h | hdvd
  · replace h := Nat.Prime.dvd_of_dvd_pow hq h
    rw [(Nat.prime_dvd_prime_iff_eq hq Nat.prime_two).mp h]
    exact zmod_pow_ne_one _ _ _ (by decide)
  rcases (Nat.Prime.dvd_mul hq).mp hdvd with h | hdvd
  · rw [(Nat.prime_dvd_prime_iff_eq hq prime_cert_17).mp h]
    exact zmod_pow_ne_one _ _ _ (by decide)
  rcases (Nat.Prime.dvd_mul hq).mp hdvd with h | hdvd
  · rw [(Nat.prime_dvd_prime_iff_eq hq prime_cert_59).mp h]
    exact zmod_pow_ne_one _ _ _ (by decide)
  rcases (Nat.Prime.dvd_mul hq).mp hdvd with h | hdvd
  · rw [(Nat.prime_dvd_prime_iff_eq hq prime_cert_4051).mp h]
    exact zmod_pow_ne_one _ _ _ (by decide)
  rcases (Nat.Prime.dvd_mul hq).mp hdvd with h | hdvd
  · rw [(Nat.prime_dvd_prime_iff_eq hq prime_cert_120233).mp h]
    exact zmod_pow_ne_one _ _ _ (by decide)
  rw [(Nat.prime_dvd_prime_iff_eq hq prime_cert_44706919).mp hdvd]
  exact zmod_pow_ne_one _ _ _ (by decide)

theorem prime_cert_22149492674086928081353 : Nat.Prime 22149492674086928081353 := by
  refine lucas_primality 22149492674086928081353 ((5 : ℕ) : ZMod 22149492674086928081353) (zmod_pow_eq_one _ _ (by decide)) ?_
  intro q hq hdvd
  have hfac : (22149492674086928081353 : ℕ) - 1 = 2 ^ 3 * (3 * (5323 * 173378833005251801)) := by decide
  rw [hfac] at hdvd
  rcases (Nat.Prime.dvd_mul hq).mp hdvd with h | hdvd
  · replace h := Nat.Prime.dvd_of_dvd_pow hq h
    rw [(Nat.prime_dvd_prime_iff_eq hq Nat.prime_two).mp h]
    exact zmod_pow_ne_one _ _ _ (by decide)
  rcases (Nat.Prime.dvd_mul hq).mp hdvd with h | hdvd
  · rw [(Nat.prime_dvd_prime_iff_eq hq prime_cert_3).mp h]
    exact zmod_pow_ne_one _ _ _ (by decide)
  rcases (Nat.Prime.dvd_mul hq).mp hdvd with h | hdvd
  · rw [(Nat.prime_dvd_prime_iff_eq hq prime_cert_5323).mp h]
    exact zmod_pow_ne_one _ _ _ (by decide)
  rw [(Nat.prime_dvd_prime_iff_eq hq prime_cert_173378833005251801).mp hdvd]
  exact zmod_pow_ne_one _ _ _ (by decide)

theorem prime_cert_132896956044521568488119 : Nat.Prime 132896956044521568488119 := by
  refine lucas_primality 132896956044521568488119 ((6 : ℕ) : ZMod 132896956044521568488119) (zmod_pow_eq_one _ _ (by decide)) ?_
  intro q hq hdvd
  have hfac : (132896956044521568488119 : ℕ) - 1 = 2 * (3 * 22149492674086928081353) := by decide
  rw [hfac] at hdvd
  rcases (Nat.Prime.dvd_mul hq).mp hdvd with h | hdvd
  · rw [(Nat.prime_dvd_prime_iff_eq hq Nat.prime_two).mp h]
    exact zmod_pow_ne_one _ _ _ (by decide)
  rcases (Nat.Prime.dvd_mul hq).mp hdvd with h | hdvd
  · rw [(Nat.prime_dvd_prime_iff_eq hq prime_cert_3).mp h]
    exact zmod_pow_ne_one _ _ _ (by decide)
  rw [(Nat.prime_dvd_prime_iff_eq hq prime_cert_22149492674086928081353).mp hdvd]
  exact zmod_pow_ne_one _ _ _ (by decide)

theorem prime_cert_29047611873442575647497758179 : Nat.Prime 29047611873442575647497758179 := by
  refine lucas_primality 29047611873442575647497758179 ((2 : ℕ) : ZMod 29047611873442575647497758179) (zmod_pow_eq_one _ _ (by decide)) ?_
  intro q hq hdvd
  have hfac : (29047611873442575647497758179 : ℕ) - 1 = 2 * (293 * (305873 * (545358713 * 297159362677))) := by decide
  rw [hfac] at hdvd
  rcases (Nat.Prime.dvd_mul hq).mp hdvd with h | hdvd
  · rw [(Nat.prime_dvd_prime_iff_eq hq Nat.prime_two).mp h]
    exact zmod_pow_ne_one _ _ _ (by decide)
  rcases (Nat.Prime.dvd_mul hq).mp hdvd with h | hdvd
  · rw [(Nat.prime_dvd_prime_iff_eq hq prime_cert_293).mp h]
    exact zmod_pow_ne_one _ _ _ (by decide)
  rcases (Nat.Prime.dvd_mul hq).mp hdvd with h | hdvd
  · rw [(Nat.prime_dvd_prime_iff_eq hq prime_cert_305873).mp h]
    exact zmod_pow_ne_one _ _ _ (by decide)
  rcases (Nat.Prime.dvd_mul hq).mp hdvd with h | hdvd
  · rw [(Nat.prime_dvd_prime_iff_eq hq prime_cert_545358713).mp h]
    exact zmod_pow_ne_one _ _ _ (by decide)
  rw [(Nat.prime_dvd_prime_iff_eq hq prime_cert_297159362677).mp hdvd]
  exact zmod_pow_ne_one _ _ _ (by decide)

theorem prime_cert_341948486974166000522343609283189 : Nat.Prime 341948486974166000522343609283189 := by
  refine lucas_primality 341948486974166000522343609283189 ((2 : ℕ) : ZMod 341948486974166000522343609283189) (zmod_pow_eq_one _ _ (by decide)) ?_
  intro q hq hdvd
  have hfac : (341948486974166000522343609283189 : ℕ) - 1 = 2 ^ 2 * (3 ^ 3 * (109 * 29047611873442575647497758179)) := by decide
  rw [hfac] at hdvd
  rcases (Nat.Prime.dvd_mul hq).mp hdvd with h | hdvd
  · replace h := Nat.Prime.dvd_of_dvd_pow hq h
    rw [(Nat.prime_dvd_prime_iff_eq hq Nat.prime_two).mp h]
    exact zmod_pow_ne_one _ _ _ (by decide)
  rcases (Nat.Prime.dvd_mul hq).mp hdvd with h | hdvd
  · replace h := Nat.Prime.dvd_of_dvd_pow hq h
    rw [(Nat.prime_dvd_prime_iff_eq hq prime_cert_3).mp h]
    exact zmod_pow_ne_one _ _ _ (by decide)
  rcases (Nat.Prime.dvd_mul hq).mp hdvd with h | hdvd
  · rw [(Nat.prime_dvd_prime_iff_eq hq prime_cert_109).mp h]
    exact zmod_pow_ne_one _ _ _ (by decide)
  rw [(Nat.prime_dvd_prime_iff_eq hq prime_cert_29047611873442575647497758179).mp hdvd]
  exact zmod_pow_ne_one _ _ _ (by decide)

theorem prime_cert_255515944373312847190720520512484175977 : Nat.Prime 255515944373312847190720520512484175977 := by
  refine lucas_primality 255515944373312847190720520512484175977 ((3 : ℕ) : ZMod 255515944373312847190720520512484175977) (zmod_pow_eq_one _ _ (by decide)) ?_
  intro q hq hdvd
  have hfac : (255515944373312847190720520512484175977 : ℕ) - 1 = 2 ^ 3 * (7 ^ 2 * (11 * (1627 * (2657 * (4423 * (41201 * (96557 * (7240687 * 107590001)))))))) := by decide
  rw [hfac] at hdvd
  rcases (Nat.Prime.dvd_mul hq).mp hdvd with h | hdvd
  · replace h := Nat.Prime.dvd_of_dvd_pow hq h
    rw [(Nat.prime_dvd_prime_iff_eq hq Nat.prime_two).mp h]
    exact zmod_pow_ne_one _ _ _ (by decide)
  rcases (Nat.Prime.dvd_mul hq).mp hdvd with h | hdvd
  · replace h := Nat.Prime.dvd_of_dvd_pow hq h
    rw [(Nat.prime_dvd_prime_iff_eq hq prime_cert_7).mp h]
    exact zmod_pow_ne_one _ _ _ (by decide)
  rcases (Nat.Prime.dvd_mul hq).mp hdvd with h | hdvd
  · rw [(Nat.prime_dvd_prime_iff_eq hq prime_cert_11).mp h]
    exact zmod_pow_ne_one _ _ _ (by decide)
  rcases (Nat.Prime.dvd_mul hq).mp hdvd with h | hdvd
  · rw [(Nat.prime_dvd_prime_iff_eq hq prime_cert_1627).mp h]
    exact zmod_pow_ne_one _ _ _ (by decide)
  rcases (Nat.Prime.dvd_mul hq).mp hdvd with h | hdvd
  · rw [(Nat.prime_dvd_prime_iff_eq hq prime_cert_2657).mp h]
    exact zmod_pow_ne_one _ _ _ (by decide)
  rcases (Nat.Prime.dvd_mul hq).mp hdvd with h | hdvd
  · rw [(Nat.prime_dvd_prime_iff_eq hq prime_cert_4423).mp h]
    exact zmod_pow_ne_one _ _ _ (by decide)
  rcases (Nat.Prime.dvd_mul hq).mp hdvd with h | hdvd
  · rw [(Nat.prime_dvd_prime_iff_eq hq prime_cert_41201).mp h]
    exact zmod_pow_ne_one _ _ _ (by decide)
  rcases (Nat.Prime.dvd_mul hq).mp hdvd with h | hdvd
  · rw [(Nat.prime_dvd_prime_iff_eq hq prime_cert_96557).mp h]
    exact zmod_pow_ne_one _ _ _ (by decide)
  rcases (Nat.Prime.dvd_mul hq).mp hdvd with h | hdvd
  · rw [(Nat.prime_dvd_prime_iff_eq hq prime_cert_7240687).mp h]
    exact zmod_pow_ne_one _ _ _ (by decide)
  rw [(Nat.prime_dvd_prime_iff_eq hq prime_cert_107590001).mp hdvd]
  exact zmod_pow_ne_one _ _ _ (by decide)

theorem prime_cert_205115282021455665897114700593932402728804164701536103180137503955397371 : Nat.Prime 205115282021455665897114700593932402728804164701536103180137503955397371 := by
  refine lucas_primality 205115282021455665897114700593932402728804164701536103180137503955397371 ((10 : ℕ) : ZMod 205115282021455665897114700593932402728804164701536103180137503955397371) (zmod_pow_eq_one _ _ (by decide)) ?_
  intro q hq hdvd
  have hfac : (205115282021455665897114700593932402728804164701536103180137503955397371 : ℕ) - 1 = 2 * (3 * (5 * (29 ^ 2 * (31 * (7723 * (132896956044521568488119 * 255515944373312847190720520512484175977)))))) := by decide
  rw [hfac] at hdvd
  rcases (Nat.Prime.dvd_mul hq).mp hdvd with h | hdvd
  · rw [(Nat.prime_dvd_prime_iff_eq hq Nat.prime_two).mp h]
    exact zmod_pow_ne_one _ _ _ (by decide)
  rcases (Nat.Prime.dvd_mul hq).mp hdvd with h | hdvd
  · rw [(Nat.prime_dvd_prime_iff_eq hq prime_cert_3).mp h]
    exact zmod_pow_ne_one _ _ _ (by decide)
  rcases (Nat.Prime.dvd_mul hq).mp hdvd with h | hdvd
  · rw [(Nat.prime_dvd_prime_iff_eq hq prime_cert_5).mp h]
    exact zmod_pow_ne_one _ _ _ (by decide)
  rcases (Nat.Prime.dvd_mul hq).mp hdvd with h | hdvd
  · replace h := Nat.Prime.dvd_of_dvd_pow hq h
    rw [(Nat.prime_dvd_prime_iff_eq hq prime_cert_29).mp h]
    exact zmod_pow_ne_one _ _ _ (by decide)
  rcases (Nat.Prime.dvd_mul hq).mp hdvd with h | hdvd
  · rw [(Nat.prime_dvd_prime_iff_eq hq prime_cert_31).mp h]
    exact zmod_pow_ne_one _ _ _ (by decide)
  rcases (Nat.Prime.dvd_mul hq).mp hdvd with h | hdvd
  · rw [(Nat.prime_dvd_prime_iff_eq hq prime_cert_7723).mp h]
    exact zmod_pow_ne_one _ _ _ (by decide)
  rcases (Nat.Prime.dvd_mul hq).mp hdvd with h | hdvd
  · rw [(Nat.prime_dvd_prime_iff_eq hq prime_cert_132896956044521568488119).mp h]
    exact zmod_pow_ne_one _ _ _ (by decide)
  rw [(Nat.prime_dvd_prime_iff_eq hq prime_cert_255515944373312847190720520512484175977).mp hdvd]
  exact zmod_pow_ne_one _ _ _ (by decide)

theorem prime_cert_115792089237316195423570985008687907852837564279074904382605163141518161494337 : Nat.Prime 115792089237316195423570985008687907852837564279074904382605163141518161494337 := by
  refine lucas_primality 115792089237316195423570985008687907852837564279074904382605163141518161494337 ((7 : ℕ) : ZMod 115792089237316195423570985008687907852837564279074904382605163141518161494337) (zmod_pow_eq_one _ _ (by decide)) ?_
  intro q hq hdvd
  have hfac : (115792089237316195423570985008687907852837564279074904382605163141518161494337 : ℕ) - 1 = 2 ^ 6 * (3 * (149 * (631 * (107361793816595537 * (174723607534414371449 * 341948486974166000522343609283189))))) := by decide
  rw [hfac] at hdvd
  rcases (Nat.Prime.dvd_mul hq).mp hdvd with h | hdvd
  · replace h := Nat.Prime.dvd_of_dvd_pow hq h
    rw [(Nat.prime_dvd_prime_iff_eq hq Nat.prime_two).mp h]
    exact zmod_pow_ne_one _ _ _ (by decide)
  rcases (Nat.Prime.dvd_mul hq).mp hdvd with h | hdvd
  · rw [(Nat.prime_dvd_prime_iff_eq hq prime_cert_3).mp h]
    exact zmod_pow_ne_one _ _ _ (by decide)
  rcases (Nat.Prime.dvd_mul hq).mp hdvd with h | hdvd
  · rw [(Nat.prime_dvd_prime_iff_eq hq prime_cert_149).mp h]
    exact zmod_pow_ne_one _ _ _ (by decide)
  rcases (Nat.Prime.dvd_mul hq).mp hdvd with h | hdvd
  · rw [(Nat.prime_dvd_prime_iff_eq hq prime_cert_631).mp h]
    exact zmod_pow_ne_one _ _ _ (by decide)
  rcases (Nat.Prime.dvd_mul hq).mp hdvd with h | hdvd
  · rw [(Nat.prime_dvd_prime_iff_eq hq prime_cert_107361793816595537).mp h]
    exact zmod_pow_ne_one _ _ _ (by decide)
  rcases (Nat.Prime.dvd_mul hq).mp hdvd with h | hdvd
  · rw [(Nat.prime_dvd_prime_iff_eq hq prime_cert_174723607534414371449).mp h]
    exact zmod_pow_ne_one _ _ _ (by decide)
  rw [(Nat.prime_dvd_prime_iff_eq hq prime_cert_341948486974166000522343609283189).mp hdvd]
  exact zmod_pow_ne_one _ _ _ (by decide)

theorem prime_cert_115792089237316195423570985008687907853269984665640564039457584007908834671663 : Nat.Prime 115792089237316195423570985008687907853269984665640564039457584007908834671663 := by
  refine lucas_primality 115792089237316195423570985008687907853269984665640564039457584007908834671663 ((3 : ℕ) : ZMod 115792089237316195423570985008687907853269984665640564039457584007908834671663) (zmod_pow_eq_one _ _ (by decide)) ?_
  intro q hq hdvd
  have hfac : (115792089237316195423570985008687907853269984665640564039457584007908834671663 : ℕ) - 1 = 2 * (3 * (7 * (13441 * 205115282021455665897114700593932402728804164701536103180137503955397371))) := by decide
  rw [hfac] at hdvd
  rcases (Nat.Prime.dvd_mul hq).mp hdvd with h | hdvd
  · rw [(Nat.prime_dvd_prime_iff_eq hq Nat.prime_two).mp h]
    exact zmod_pow_ne_one _ _ _ (by decide)
  rcases (Nat.Prime.dvd_mul hq).mp hdvd with h | hdvd
  · rw [(Nat.prime_dvd_prime_iff_eq hq prime_cert_3).mp h]
    exact zmod_pow_ne_one _ _ _ (by decide)
  rcases (Nat.Prime.dvd_mul hq).mp hdvd with h | hdvd
  · rw [(Nat.prime_dvd_prime_iff_eq hq prime_cert_7).mp h]
    exact zmod_pow_ne_one _ _ _ (by decide)
  rcases (Nat.Prime.dvd_mul hq).mp hdvd with h | hdvd
  · rw [(Nat.prime_dvd_prime_iff_eq hq prime_cert_13441).mp h]
    exact zmod_pow_ne_one _ _ _ (by decide)
  rw [(Nat.prime_dvd_prime_iff_eq hq prime_cert_205115282021455665897114700593932402728804164701536103180137503955397371).mp hdvd]
  exact zmod_pow_ne_one _ _ _ (by decide)

theorem Psec_prime : Nat.Prime Psec := prime_cert_115792089237316195423570985008687907853269984665640564039457584007908834671663

theorem Nsec_prime : Nat.Prime Nsec := prime_cert_115792089237316195423570985008687907852837564279074904382605163141518161494337

/-! ### The curve as a Mathlib Weierstrass curve

The executable arithmetic above is connected to the nonsingular-point group
of the secp256k1 Weierstrass curve over `ZMod Psec`, which provides the group
law needed for the signature and derivation theorems.
-/

instance factPsecPrime : Fact (Nat.Prime Psec) := ⟨Psec_prime⟩

instance factNsecPrime : Fact (Nat.Prime Nsec) := ⟨Nsec_prime⟩

/-- The secp256k1 base field. -/
abbrev Fsec : Type := ZMod Psec

/-- The secp256k1 curve `y² = x³ + 7`. -/
def Wsec : WeierstrassCurve.Affine Fsec :=
  { a₁ := 0, a₂ := 0, a₃ := 0, a₄ := 0, a₆ := 7 }

/-- Interpretation of a reduced natural number as a field element. -/
def natF (a : ℕ) : Fsec := (a : Fsec)

theorem natF_mod (a : ℕ) : natF (a % Psec) = natF a := ZMod.natCast_mod a Psec

theorem natF_mul (a b : ℕ) : natF (a * b % Psec) = natF a * natF b := by
  unfold natF
  rw [ZMod.natCast_mod]
  push_cast
  ring

theorem natF_add (a b : ℕ) : natF ((a + b) % Psec) = natF a + natF b := by
  unfold natF
  rw [ZMod.natCast_mod]
  push_cast
  ring

theorem natF_fsub (a b : ℕ) : natF (fsub a b) = natF a - natF b := by
  unfold fsub natF
  rw [ZMod.natCast_mod]
  have hble : b % Psec ≤ Psec := le_of_lt (Nat.mod_lt _ (by decide))
  rw [Nat.cast_add, Nat.cast_sub hble, ZMod.natCast_self, ZMod.natCast_mod]
  ring

theorem natF_pow (a e : ℕ) : natF (powMod a e Psec) = natF a ^ e := by
  unfold natF
  rw [zmodPow_powMod]

theorem natF_finv (a : ℕ) : natF (finv a) = (natF a)⁻¹ := by
  unfold finv
  rw [natF_pow]
  by_cases ha : natF a = 0
  · rw [ha, inv_zero]
    exact zero_pow (by decide)
  · have hfer : natF a ^ (Psec - 1) = 1 := ZMod.pow_card_sub_one_eq_one ha
    have hstep : natF a ^ (Psec - 2) * natF a = 1 := by
      rw [← pow_succ]
      have : Psec - 2 + 1 = Psec - 1 := by decide
      rw [this]
      exact hfer
    exact eq_inv_of_mul_eq_one_left hstep

theorem natF_val (x : Fsec) : natF x.val = x := ZMod.natCast_rightInverse x

theorem val_natF_of_lt (a : ℕ) (ha : a < Psec) : (natF a).val = a :=
  ZMod.val_cast_of_lt ha

theorem natF_inj (a b : ℕ) (ha : a < Psec) (hb : b < Psec) (h : natF a = natF b) :
    a = b := by
  have := congrArg ZMod.val h
  rwa [val_natF_of_lt a ha, val_natF_of_lt b hb] at this

instance : NeZero Psec := ⟨by decide⟩

instance : NeZero Nsec := ⟨by decide⟩

theorem Wsec_negY (x y : Fsec) : Wsec.negY x y = -y := by
  simp [WeierstrassCurve.Affine.negY, Wsec]

theorem Wsec_equation_iff (x y : Fsec) :
    Wsec.Equation x y ↔ y ^ 2 = x ^ 3 + 7 := by
  rw [WeierstrassCurve.Affine.equation_iff]
  simp [Wsec]

theorem Wsec_nonsingular_of (x y : Fsec) (he : Wsec.Equation x y)
    (hy : y ≠ -y) : Wsec.Nonsingular x y := by
  rw [WeierstrassCurve.Affine.nonsingular_iff]
  refine ⟨he, Or.inr ?_⟩
  show y ≠ -y - Wsec.a₁ * x - Wsec.a₃
  simpa [Wsec] using hy

/-- Forgetful map from the Mathlib point group to executable value pairs. -/
def toPt : Wsec.Point → Option (ℕ × ℕ)
  | .zero => none
  | @WeierstrassCurve.Affine.Point.some _ _ _ x y _ => some (x.val, y.val)

theorem toPt_zero : toPt 0 = none := rfl

theorem toPt_eq_none_iff (P : Wsec.Point) : toPt P = none ↔ P = 0 := by
  cases P with
  | zero => simp [toPt, WeierstrassCurve.Affine.Point.zero_def]
  | @some x y h =>
    constructor
    · intro hc; exact absurd hc (by simp [toPt])
    · intro hc
      exact absurd hc (WeierstrassCurve.Affine.Point.some_ne_zero h)

theorem val_inj_Fsec (x y : Fsec) (h : x.val = y.val) : x = y := by
  have hx := natF_val x
  rw [← hx, h, natF_val]

theorem toPt_injective (P Q : Wsec.Point) (h : toPt P = toPt Q) : P = Q := by
  cases P with
  | zero =>
    cases Q with
    | zero => rfl
    | @some x y hq => exact absurd h.symm (by simp [toPt])
  | @some x y hp =>
    cases Q with
    | zero => exact absurd h (by simp [toPt])
    | @some u v hq =>
      simp only [toPt, Option.some.injEq, Prod.mk.injEq] at h
      obtain ⟨h1, h2⟩ := h
      have hx : x = u := val_inj_Fsec x u h1
      have hy : y = v := val_inj_Fsec y v h2
      subst hx
      subst hy
      rfl

theorem fsub_lt (a b : ℕ) : fsub a b < Psec := Nat.mod_lt _ (by decide)

theorem val_sum_eq_zero_iff (a b : Fsec) :
    (a.val + b.val) % Psec = 0 ↔ a = -b := by
  rw [← ZMod.val_add]
  constructor
  · intro h
    have h0 : a + b = 0 := (ZMod.val_eq_zero (a + b)).mp h
    exact eq_neg_of_add_eq_zero_left h0
  · intro h
    rw [h]
    have h0 : -b + b = 0 := by ring
    rw [h0]
    simp

theorem addX_val (x₁ x₂ l : Fsec) (L : ℕ) (hLf : natF L = l) :
    fsub (L * L % Psec) ((x₁.val + x₂.val) % Psec) = (Wsec.addX x₁ x₂ l).val := by
  have h1 : natF (fsub (L * L % Psec) ((x₁.val + x₂.val) % Psec)) = Wsec.addX x₁ x₂ l := by
    rw [natF_fsub, natF_mul, natF_add, hLf, natF_val, natF_val]
    simp only [WeierstrassCurve.Affine.addX, Wsec]
    ring
  rw [← h1, val_natF_of_lt _ (fsub_lt _ _)]

theorem addY_val (x₁ x₂ y₁ l : Fsec) (L X3 : ℕ) (hLf : natF L = l)
    (hX3 : natF X3 = Wsec.addX x₁ x₂ l) :
    fsub (L * fsub x₁.val X3 % Psec) y₁.val = (Wsec.addY x₁ x₂ y₁ l).val := by
  have h1 : natF (fsub (L * fsub x₁.val X3 % Psec) y₁.val) = Wsec.addY x₁ x₂ y₁ l := by
    rw [natF_fsub, natF_mul, natF_fsub, hLf, natF_val, natF_val, hX3]
    simp only [WeierstrassCurve.Affine.addY, WeierstrassCurve.Affine.negAddY,
      WeierstrassCurve.Affine.negY, Wsec]
    ring
  rw [← h1, val_natF_of_lt _ (fsub_lt _ _)]

theorem slope_secant_val (x₁ x₂ y₁ y₂ : Fsec) (hx : x₁ ≠ x₂) :
    natF (fsub y₁.val y₂.val * finv (fsub x₁.val x₂.val) % Psec) =
      Wsec.slope x₁ x₂ y₁ y₂ := by
  rw [natF_mul, natF_fsub, natF_finv, natF_fsub, natF_val, natF_val, natF_val, natF_val,
    WeierstrassCurve.Affine.slope_of_X_ne hx, div_eq_mul_inv]

theorem slope_tangent_val (x₁ y₁ : Fsec) (hy : y₁ ≠ Wsec.negY x₁ y₁) :
    natF (3 * (x₁.val * x₁.val % Psec) % Psec * finv (2 * y₁.val % Psec) % Psec) =
      Wsec.slope x₁ x₁ y₁ y₁ := by
  rw [WeierstrassCurve.Affine.slope_of_Y_ne rfl hy]
  have h3 : natF 3 = (3 : Fsec) := by norm_num [natF]
  have h2 : natF 2 = (2 : Fsec) := by norm_num [natF]
  simp only [natF_mul, natF_finv, h3, h2, natF_val]
  have hnum : (3 : Fsec) * (x₁ * x₁) = 3 * x₁ ^ 2 + 2 * Wsec.a₂ * x₁ + Wsec.a₄ - Wsec.a₁ * y₁ := by
    show (3 : Fsec) * (x₁ * x₁) = 3 * x₁ ^ 2 + 2 * 0 * x₁ + 0 - 0 * y₁
    ring
  have hden : (2 : Fsec) * y₁ = y₁ - Wsec.negY x₁ y₁ := by
    rw [Wsec_negY]
    ring
  rw [← hnum, ← hden, div_eq_mul_inv]

theorem tangent_y_ne_zero (x₁ y₁ : Fsec) (hy : y₁ ≠ Wsec.negY x₁ y₁) : y₁ ≠ 0 := by
  intro h0
  apply hy
  rw [Wsec_negY, h0, neg_zero]

theorem toPt_add (P Q : Wsec.Point) : toPt (P + Q) = pAddN (toPt P) (toPt Q) := by
  cases P with
  | zero =>
    show toPt ((0 : Wsec.Point) + Q) = pAddN none (toPt Q)
    rw [zero_add]
    cases Q with
    | zero => rfl
    | @some x y h => rfl
  | @some x₁ y₁ h₁ =>
    cases Q with
    | zero =>
      show toPt (WeierstrassCurve.Affine.Point.some h₁ + (0 : Wsec.Point)) =
        pAddN (some (x₁.val, y₁.val)) none
      rw [add_zero, pAddN_none_right]
      rfl
    | @some x₂ y₂ h₂ =>
      by_cases hx : x₁ = x₂
      · by_cases hy : y₁ = Wsec.negY x₂ y₂
        · rw [WeierstrassCurve.Affine.Point.add_of_Y_eq hx hy]
          have hxv : x₁.val = x₂.val := by rw [hx]
          have hyv : (y₁.val + y₂.val) % Psec = 0 := by
            rw [val_sum_eq_zero_iff]
            rw [hy, Wsec_negY]
          show none = pAddN (some (x₁.val, y₁.val)) (some (x₂.val, y₂.val))
          simp [pAddN, hxv, hyv]
        · -- tangent case: two nonsingular points sharing an abscissa coincide
          have hyy : y₁ = y₂ :=
            WeierstrassCurve.Affine.Y_eq_of_Y_ne h₁.1 h₂.1 hx hy
          subst hx
          subst hyy
          rw [WeierstrassCurve.Affine.Point.add_of_Y_ne hy]
          have hy0 : y₁ ≠ 0 := tangent_y_ne_zero x₁ y₁ hy
          have hyv0 : y₁.val ≠ 0 := fun hc => hy0 ((ZMod.val_eq_zero y₁).mp hc)
          have hsum : ¬((y₁.val + y₁.val) % Psec = 0) := by
            rw [val_sum_eq_zero_iff]
            intro hc
            apply hy
            rw [Wsec_negY]
            exact hc
          have hL : natF (3 * (x₁.val * x₁.val % Psec) % Psec *
              finv (2 * y₁.val % Psec) % Psec) = Wsec.slope x₁ x₁ y₁ y₁ :=
            slope_tangent_val x₁ y₁ hy
          show some ((Wsec.addX x₁ x₁ (Wsec.slope x₁ x₁ y₁ y₁)).val,
              (Wsec.addY x₁ x₁ y₁ (Wsec.slope x₁ x₁ y₁ y₁)).val) =
            pAddN (some (x₁.val, y₁.val)) (some (x₁.val, y₁.val))
          simp only [pAddN, if_pos rfl, if_true, if_neg hsum, pDouble, if_neg hyv0]
          rw [addX_val x₁ x₁ _ _ hL]
          rw [addY_val x₁ x₁ y₁ _ _ _ hL (natF_val _)]
      · -- secant case
        have hxv : x₁.val ≠ x₂.val := fun hc => hx (val_inj_Fsec x₁ x₂ hc)
        rw [WeierstrassCurve.Affine.Point.add_of_X_ne hx]
        have hL : natF (fsub y₁.val y₂.val * finv (fsub x₁.val x₂.val) % Psec) =
            Wsec.slope x₁ x₂ y₁ y₂ := slope_secant_val x₁ x₂ y₁ y₂ hx
        show some ((Wsec.addX x₁ x₂ (Wsec.slope x₁ x₂ y₁ y₂)).val,
            (Wsec.addY x₁ x₂ y₁ (Wsec.slope x₁ x₂ y₁ y₂)).val) =
          pAddN (some (x₁.val, y₁.val)) (some (x₂.val, y₂.val))
        simp only [pAddN, if_neg hxv]
        rw [addX_val x₁ x₂ _ _ hL]
        rw [addY_val x₁ x₂ y₁ _ _ _ hL (natF_val _)]

theorem pAddN_self_eq_pDouble (x y : ℕ) (hy : y < Psec) :
    pAddN (some (x, y)) (some (x, y)) = pDouble (some (x, y)) := by
  show (if x = x then
      if (y + y) % Psec = 0 then none else pDouble (some (x, y))
    else _) = pDouble (some (x, y))
  rw [if_pos rfl]
  by_cases h : (y + y) % Psec = 0
  · rw [if_pos h]
    have hodd : Psec % 2 = 1 := by decide
    have h2 : y + y = 0 ∨ y + y = Psec := by
      rcases Nat.lt_or_ge (y + y) Psec with hlt | hge
      · left; rwa [Nat.mod_eq_of_lt hlt] at h
      · right
        have hsub : y + y - Psec < Psec := by omega
        rw [Nat.mod_eq_sub_mod hge, Nat.mod_eq_of_lt hsub] at h
        omega
    have hy0 : y = 0 := by
      rcases h2 with h2 | h2
      · omega
      · omega
    subst hy0
    simp [pDouble]
  · rw [if_neg h]

theorem toPt_double (B : Wsec.Point) : pDouble (toPt B) = toPt (B + B) := by
  cases B with
  | zero =>
    show pDouble none = toPt ((0 : Wsec.Point) + 0)
    rw [add_zero]
    rfl
  | @some x y h =>
    rw [toPt_add]
    exact (pAddN_self_eq_pDouble x.val y.val (ZMod.val_lt y)).symm

theorem toPt_pMulC :
    ∀ fuel k (A B : Wsec.Point), k ≤ fuel →
      pMulC fuel k (toPt B) (toPt A) = toPt (A + k • B) := by
  intro fuel
  induction fuel with
  | zero =>
    intro k A B hk
    interval_cases k
    show toPt A = toPt (A + 0 • B)
    rw [zero_nsmul, add_zero]
  | succ n ih =>
    intro k A B hk
    by_cases hk0 : k = 0
    · subst hk0
      show toPt A = toPt (A + 0 • B)
      rw [zero_nsmul, add_zero]
    · have hrec : k / 2 ≤ n := by omega
      rw [pMulC, if_neg hk0, toPt_double]
      rcases Nat.mod_two_eq_zero_or_one k with hpar | hpar
      · rw [hpar, if_neg (by norm_num), ih (k / 2) A (B + B) hrec]
        have hsplit : (k / 2) • (B + B) = k • B := by
          rw [← two_nsmul, ← mul_smul]
          congr 1
          omega
        rw [hsplit]
      · rw [hpar, if_pos rfl, ← toPt_add, ih (k / 2) (A + B) (B + B) hrec]
        have hsplit : A + B + (k / 2) • (B + B) = A + k • B := by
          rw [← two_nsmul, ← mul_smul]
          have hk2 : k = 2 * (k / 2) + 1 := by omega
          conv_rhs => rw [hk2]
          rw [succ_nsmul, mul_comm]
          abel
        rw [hsplit]

theorem toPt_pMulN (k : ℕ) (B : Wsec.Point) : pMulN k (toPt B) = toPt (k • B) := by
  unfold pMulN
  rw [pMulAux_eq_pMulC]
  have h0 : (none : Option (ℕ × ℕ)) = toPt 0 := rfl
  rw [h0, toPt_pMulC k k 0 B le_rfl, zero_add]

theorem Gm_nonsingular : Wsec.Nonsingular (natF Gx) (natF Gy) := by
  apply Wsec_nonsingular_of
  · rw [Wsec_equation_iff]
    have key : ((Gy * Gy : ℕ) : Fsec) = ((Gx * Gx * Gx + 7 : ℕ) : Fsec) := by
      rw [ZMod.natCast_eq_natCast_iff]
      show (Gy * Gy) % Psec = (Gx * Gx * Gx + 7) % Psec
      decide
    push_cast at key
    show natF Gy ^ 2 = natF Gx ^ 3 + 7
    unfold natF
    linear_combination key
  · intro hc
    have h2y : ((Gy + Gy : ℕ) : Fsec) = 0 := by
      push_cast
      show natF Gy + natF Gy = 0
      linear_combination hc
    rw [ZMod.natCast_zmod_eq_zero_iff_dvd, Nat.dvd_iff_mod_eq_zero] at h2y
    exact absurd h2y (by decide)

/-- The secp256k1 base point as a nonsingular curve point. -/
def Gm : Wsec.Point := WeierstrassCurve.Affine.Point.some Gm_nonsingular

theorem toPt_Gm : toPt Gm = Gpt := by
  show some ((natF Gx).val, (natF Gy).val) = some (Gx, Gy)
  rw [val_natF_of_lt Gx (by decide), val_natF_of_lt Gy (by decide)]

set_option maxHeartbeats 16000000 in
theorem pMulN_Nsec_Gpt : pMulN Nsec Gpt = none := by decide

theorem Nsec_smul_Gm : Nsec • Gm = 0 := by
  apply toPt_injective
  rw [toPt_zero, ← toPt_pMulN, toPt_Gm, pMulN_Nsec_Gpt]

theorem Gm_ne_zero : Gm ≠ 0 :=
  WeierstrassCurve.Affine.Point.some_ne_zero Gm_nonsingular

theorem addOrderOf_Gm : addOrderOf Gm = Nsec :=
  addOrderOf_eq_prime Nsec_smul_Gm Gm_ne_zero

theorem smul_Gm_ne_zero (k : ℕ) (h0 : 0 < k) (hlt : k < Nsec) : k • Gm ≠ 0 := by
  intro hc
  have hdvd : addOrderOf Gm ∣ k := addOrderOf_dvd_of_nsmul_eq_zero hc
  rw [addOrderOf_Gm] at hdvd
  have := Nat.le_of_dvd h0 hdvd
  omega

theorem smul_Gm_mod (k : ℕ) : (k % Nsec) • Gm = k • Gm := by
  conv_rhs => rw [← Nat.mod_add_div k Nsec]
  rw [add_smul, mul_comm, mul_smul, Nsec_smul_Gm, nsmul_zero, add_zero]

/-- Interpretation of a natural number as a scalar modulo the group order. -/
def natN (a : ℕ) : ZMod Nsec := (a : ZMod Nsec)

theorem natN_mod (a : ℕ) : natN (a % Nsec) = natN a := ZMod.natCast_mod a Nsec

theorem natN_mul (a b : ℕ) : natN (a * b % Nsec) = natN a * natN b := by
  unfold natN
  rw [ZMod.natCast_mod]
  push_cast
  ring

theorem natN_add (a b : ℕ) : natN ((a + b) % Nsec) = natN a + natN b := by
  unfold natN
  rw [ZMod.natCast_mod]
  push_cast
  ring

theorem natN_pow (a e : ℕ) : natN (powMod a e Nsec) = natN a ^ e := by
  unfold natN
  rw [zmodPow_powMod]

theorem natN_inv (a : ℕ) (ha : natN a ≠ 0) :
    natN (powMod a (Nsec - 2) Nsec) = (natN a)⁻¹ := by
  rw [natN_pow]
  have hfer : natN a ^ (Nsec - 1) = 1 := ZMod.pow_card_sub_one_eq_one ha
  have hstep : natN a ^ (Nsec - 2) * natN a = 1 := by
    rw [← pow_succ]
    have : Nsec - 2 + 1 = Nsec - 1 := by decide
    rw [this]
    exact hfer
  exact eq_inv_of_mul_eq_one_left hstep

theorem natN_sub_of_le (a : ℕ) (ha : a ≤ Nsec) : natN (Nsec - a) = -natN a := by
  unfold natN
  rw [Nat.cast_sub ha, ZMod.natCast_self]
  ring

theorem natN_eq_zero_iff (a : ℕ) (ha : a < Nsec) : natN a = 0 ↔ a = 0 := by
  constructor
  · intro h
    have := (ZMod.natCast_zmod_eq_zero_iff_dvd a Nsec).mp h
    rcases Nat.eq_zero_of_dvd_of_lt this ha with h0
    · exact h0
  · intro h; rw [h]; exact Nat.cast_zero

theorem val_natN_of_lt (a : ℕ) (ha : a < Nsec) : (natN a).val = a :=
  ZMod.val_cast_of_lt ha

theorem natN_mod_eq (a b : ℕ) (h : natN a = natN b) : a % Nsec = b % Nsec :=
  (ZMod.natCast_eq_natCast_iff a b Nsec).mp h

theorem val_neg_eq (y : Fsec) (hy : y ≠ 0) : (-y).val = Psec - y.val := by
  have hvne : y.val ≠ 0 := fun hc => hy ((ZMod.val_eq_zero y).mp hc)
  have hvlt : y.val < Psec := ZMod.val_lt y
  have h1 : natF (Psec - y.val) = -y := by
    unfold natF
    rw [Nat.cast_sub (le_of_lt hvlt), ZMod.natCast_self]
    have := natF_val y
    unfold natF at this
    rw [this]
    ring
  rw [← h1, val_natF_of_lt _ (by omega)]

theorem natF_uOf (x y : Fsec) (he : Wsec.Equation x y) : natF (uOf x.val) = y ^ 2 := by
  have hequ : y ^ 2 = x ^ 3 + 7 := (Wsec_equation_iff x y).mp he
  unfold uOf
  rw [natF_mod]
  unfold natF
  push_cast
  have hx1 : ((x.val * x.val % Psec : ℕ) : Fsec) = x * x := by
    have := natF_mul x.val x.val
    unfold natF at this
    rw [this]
    have hv := natF_val x
    unfold natF at hv
    rw [hv]
  rw [hx1]
  have hv := natF_val x
  unfold natF at hv
  rw [hv, hequ]
  ring

theorem pow_exponent_split : 2 * ((Psec + 1) / 4 * 2) = 2 + (Psec - 1) := by decide

theorem natF_cOf_sq (x y : Fsec) (he : Wsec.Equation x y) :
    natF (cOf x.val) ^ 2 = y ^ 2 * y ^ (Psec - 1) := by
  unfold cOf
  rw [natF_pow, natF_uOf x y he, ← pow_mul, ← pow_mul, pow_exponent_split, pow_add]

theorem exp_quarter_ne_zero : (Psec + 1) / 4 ≠ 0 := by decide

theorem zero_pow_quarter : (0 : ℕ) ^ ((Psec + 1) / 4) = 0 := zero_pow exp_quarter_ne_zero

theorem sqrt_prop (x y : Fsec) (he : Wsec.Equation x y) :
    cOf x.val * cOf x.val % Psec = uOf x.val ∧
    (natF (cOf x.val) = y ∨ natF (cOf x.val) = -y) := by
  by_cases hy0 : y = 0
  · subst hy0
    have hu0 : uOf x.val = 0 := by
      apply natF_inj _ 0 (uOf_lt _) (by decide)
      rw [natF_uOf x 0 he]
      norm_num [natF]
    have hc0 : cOf x.val = 0 := by
      unfold cOf
      rw [hu0, powMod_eq, zero_pow_quarter, Nat.zero_mod]
    rw [hc0, hu0]
    constructor
    · decide
    · left
      norm_num [natF]
  · have hfer : y ^ (Psec - 1) = 1 := ZMod.pow_card_sub_one_eq_one hy0
    have hcsq : natF (cOf x.val) ^ 2 = y ^ 2 := by
      rw [natF_cOf_sq x y he, hfer, mul_one]
    constructor
    · apply natF_inj _ _ (Nat.mod_lt _ (by decide)) (uOf_lt _)
      rw [natF_mul, ← pow_two, hcsq, natF_uOf x y he]
    · have hfac : (natF (cOf x.val) - y) * (natF (cOf x.val) + y) = 0 := by
        have hz : natF (cOf x.val) ^ 2 - y ^ 2 = 0 := by
          rw [hcsq]; ring
        linear_combination hz
      rcases mul_eq_zero.mp hfac with h | h
      · left; linear_combination h
      · right; linear_combination h

theorem Psec_odd : Psec % 2 = 1 := by decide

theorem decompressPoint_eq (x y : Fsec) (he : Wsec.Equation x y) (hy0 : y ≠ 0)
    (b : ℕ) (hb : b < 2) :
    decompressPoint ((2 + b) :: natToBytes 32 x.val) =
      some (x.val, if b = y.val % 2 then y.val else Psec - y.val) := by
  have hxlt : x.val < Psec := ZMod.val_lt x
  have hxlt2 : x.val < 256 ^ 32 := lt_trans hxlt (by decide)
  have hyvlt : y.val < Psec := ZMod.val_lt y
  have hyvne : y.val ≠ 0 := fun hc => hy0 ((ZMod.val_eq_zero y).mp hc)
  have hsq := sqrt_prop x y he
  unfold decompressPoint
  have hcond : ((2 + b) :: natToBytes 32 x.val).length = 33 ∧
      (((2 + b) :: natToBytes 32 x.val).headD 0 = 2 ∨
       ((2 + b) :: natToBytes 32 x.val).headD 0 = 3) := by
    constructor
    · simp [natToBytes_length]
    · show 2 + b = 2 ∨ 2 + b = 3
      omega
  rw [if_pos hcond]
  have hdrop : List.drop 1 ((2 + b) :: natToBytes 32 x.val) = natToBytes 32 x.val := by
    rw [List.drop_one, List.tail_cons]
  rw [hdrop, beNat_natToBytes 32 x.val hxlt2, if_pos hxlt, if_pos hsq.1]
  have hhead : ((2 + b) :: natToBytes 32 x.val).headD 0 = 2 + b := List.headD_cons
  rw [hhead]
  have h2b : (2 + b) % 2 = b := by omega
  rw [h2b]
  suffices hsel : (if cOf x.val % 2 = b then cOf x.val else (Psec - cOf x.val) % Psec) =
      (if b = y.val % 2 then y.val else Psec - y.val) by rw [hsel]
  rcases hsq.2 with hc | hc
  · have hcv : cOf x.val = y.val := by
      rw [← hc, val_natF_of_lt _ (cOf_lt _)]
    rw [hcv]
    by_cases hpar : b = y.val % 2
    · rw [if_pos hpar.symm, if_pos hpar]
    · rw [if_neg (fun hcc => hpar hcc.symm), if_neg hpar]
      have : Psec - y.val < Psec := by omega
      exact Nat.mod_eq_of_lt this
  · have hcv : cOf x.val = Psec - y.val := by
      rw [← val_neg_eq y hy0, ← hc, val_natF_of_lt _ (cOf_lt _)]
    rw [hcv]
    have hparne : (Psec - y.val) % 2 ≠ y.val % 2 := by
      have hodd := Psec_odd
      omega
    by_cases hpar : b = y.val % 2
    · rw [if_neg (by omega), if_pos hpar]
      have hyy : Psec - (Psec - y.val) = y.val := by omega
      rw [hyy]
      exact Nat.mod_eq_of_lt hyvlt
    · rw [if_pos (by omega), if_neg hpar]

theorem sig_parts (A B : List ℕ) (c : ℕ) (hA : A.length = 32) (hB : B.length = 32) :
    (A ++ (B ++ [c])).take 32 = A ∧
    ((A ++ (B ++ [c])).drop 32).take 32 = B ∧
    (A ++ (B ++ [c])).getD 64 0 = c ∧
    (A ++ (B ++ [c])).length = 65 := by
  refine ⟨?_, ?_, ?_, ?_⟩
  · rw [← hA, List.take_left]
  · have h1 : (A ++ (B ++ [c])).drop 32 = B ++ [c] := by rw [← hA, List.drop_left]
    rw [h1, ← hB, List.take_left]
  · rw [List.getD]
    have h1 : (A ++ (B ++ [c])).get? 64 = (B ++ [c]).get? 32 := by
      rw [List.get?_append_right (by omega)]
      congr 1
      omega
    have h2 : (B ++ [c]).get? 32 = [c].get? 0 := by
      rw [List.get?_append_right (by omega)]
      congr 1
      omega
    rw [h1, h2]
    rfl
  · simp [hA, hB]

theorem point_of_toPt_some (P : Wsec.Point) (rx ry : ℕ) (h : toPt P = some (rx, ry)) :
    ∃ (X Y : Fsec) (hns : Wsec.Nonsingular X Y),
      P = WeierstrassCurve.Affine.Point.some hns ∧ X.val = rx ∧ Y.val = ry := by
  cases P with
  | zero => exact absurd h (by simp [toPt])
  | @some X Y hns =>
    refine ⟨X, Y, hns, rfl, ?_, ?_⟩
    · have := h
      simp only [toPt, Option.some.injEq, Prod.mk.injEq] at this
      exact this.1
    · have := h
      simp only [toPt, Option.some.injEq, Prod.mk.injEq] at this
      exact this.2

theorem smul_y_ne_zero (kN : ℕ) (h0 : 0 < kN) (hlt : kN < Nsec)
    (X Y : Fsec) (hns : Wsec.Nonsingular X Y)
    (hP : kN • Gm = WeierstrassCurve.Affine.Point.some hns) : Y ≠ 0 := by
  intro hy0
  have hdouble : WeierstrassCurve.Affine.Point.some hns +
      WeierstrassCurve.Affine.Point.some hns = 0 := by
    apply WeierstrassCurve.Affine.Point.add_of_Y_eq rfl
    rw [Wsec_negY, hy0, neg_zero]
  have h2k : (kN + kN) • Gm = 0 := by
    rw [add_smul, hP, hdouble]
  have h2k2 : ((kN + kN) % Nsec) • Gm = 0 := by
    rw [smul_Gm_mod]
    exact h2k
  have hne : (kN + kN) % Nsec ≠ 0 := by
    intro hc
    have hdvd : Nsec ∣ kN + kN := Nat.dvd_of_mod_eq_zero hc
    have : Nsec ∣ 2 * kN := by rwa [two_mul]
    rcases (Nat.Prime.dvd_mul Nsec_prime).mp this with hd | hd
    · have := Nat.le_of_dvd (by norm_num) hd
      have : (2 : ℕ) < Nsec := by decide
      omega
    · have := Nat.le_of_dvd h0 hd
      omega
  exact smul_Gm_ne_zero _ (Nat.pos_of_ne_zero hne) (Nat.mod_lt _ (by decide)) h2k2
theorem signLoop_ok_elim (z d : ℕ) :
    ∀ ns sig, signLoop z d ns = .ok sig →
    ∃ kN rx ry,
      kN ≠ 0 ∧ kN < Nsec ∧
      pMulN kN Gpt = some (rx, ry) ∧
      rx % Nsec ≠ 0 ∧
      sOf z d kN rx ≠ 0 ∧
      sig = SigOf z d kN rx ry := by
  intro ns
  induction ns with
  | nil =>
    intro sig h
    exact absurd h (by simp [signLoop])
  | cons k ks ih =>
    intro sig h
    rw [signLoop] at h
    by_cases hk : k = 0 ∨ Nsec ≤ k
    · rw [if_pos hk] at h
      exact ih sig h
    · rw [if_neg hk] at h
      push_neg at hk
      rcases hmul : pMulN k Gpt with _ | rpt
      · rw [hmul] at h
        exact ih sig h
      · rw [hmul] at h
        dsimp only [] at h
        by_cases hr : rpt.1 % Nsec = 0
        · rw [if_pos hr] at h
          exact ih sig h
        · rw [if_neg hr] at h
          by_cases hs : sOf z d k rpt.1 = 0
          · rw [if_pos hs] at h
            exact ih sig h
          · rw [if_neg hs] at h
            exact ⟨k, rpt.1, rpt.2, hk.1, hk.2, by rw [hmul], hr, hs,
              (Except.ok.inj h).symm⟩
theorem SigOf_getD (z d kN rx ry : ℕ) :
    (SigOf z d kN rx ry).getD 64 0 =
      if Nsec / 2 < sOf z d kN rx then recOf rx ry ^^^ 1 else recOf rx ry := by
  unfold SigOf
  split <;>
    exact (sig_parts _ _ _ (natToBytes_length _ _) (natToBytes_length _ _)).2.2.1

theorem SigOf_length (z d kN rx ry : ℕ) : (SigOf z d kN rx ry).length = 65 := by
  unfold SigOf
  split <;>
    exact (sig_parts _ _ _ (natToBytes_length _ _) (natToBytes_length _ _)).2.2.2

theorem SigOf_take (z d kN rx ry : ℕ) :
    (SigOf z d kN rx ry).take 32 = natToBytes 32 (rx % Nsec) := by
  unfold SigOf
  split <;>
    exact (sig_parts _ _ _ (natToBytes_length _ _) (natToBytes_length _ _)).1

theorem SigOf_drop (z d kN rx ry : ℕ) :
    ((SigOf z d kN rx ry).drop 32).take 32 =
      natToBytes 32
        (if Nsec / 2 < sOf z d kN rx then Nsec - sOf z d kN rx else sOf z d kN rx) := by
  unfold SigOf
  split <;>
    exact (sig_parts _ _ _ (natToBytes_length _ _) (natToBytes_length _ _)).2.1

theorem recOf_of_lt (rx ry b : ℕ)
    (hb : b = recOf rx ry ∨ b = recOf rx ry ^^^ 1) (hlt : b < 2) :
    rx % Nsec = rx ∧ recOf rx ry = ry % 2 := by
  unfold recOf at hb ⊢
  by_cases hx : rx % Nsec = rx
  · refine ⟨hx, ?_⟩
    rw [if_pos hx, Nat.zero_add]
  · exfalso
    rw [if_neg hx] at hb
    rcases Nat.mod_two_eq_zero_or_one ry with h2 | h2 <;> rw [h2] at hb <;>
      rcases hb with hb | hb <;> subst hb <;> exact absurd hlt (by decide)

theorem flip_parity (ry : ℕ) (hry : ry < Psec) :
    (Psec - ry) % 2 = ry % 2 ^^^ 1 := by
  have hodd := Psec_odd
  rcases Nat.mod_two_eq_zero_or_one ry with h2 | h2 <;> rw [h2]
  · have h1 : (0 : ℕ) ^^^ 1 = 1 := by decide
    rw [h1]
    omega
  · have h1 : (1 : ℕ) ^^^ 1 = 0 := by decide
    rw [h1]
    omega

theorem smul_Gm_congr (a b : ℕ) (h : natN a = natN b) : a • Gm = b • Gm := by
  rw [← smul_Gm_mod a, ← smul_Gm_mod b, natN_mod_eq a b h]

theorem neg_smul_Gm (k : ℕ) (hk : k ≤ Nsec) : (Nsec - k) • Gm = -(k • Gm) := by
  have hz : (Nsec - k) • Gm + k • Gm = 0 := by
    rw [← add_smul, Nat.sub_add_cancel hk, Nsec_smul_Gm]
  exact add_eq_zero_iff_eq_neg.mp hz

theorem natN_linear (u v m : ℕ) : natN (u + v * m) = natN u + natN v * natN m := by
  unfold natN
  push_cast
  ring

/-- Evaluation of `recover` on a well-formed signature whose parts are known:
the embedded byte manipulations reduce to the two scalar multiplications and
the point addition of standard ECDSA recovery. -/
theorem recover_ok (msg sig : List ℕ) (hmh : isValidMessageHash msg = true)
    (rx s' : ℕ) (q : ℕ × ℕ)
    (hlen : sig.length = 65)
    (htake : sig.take 32 = natToBytes 32 rx)
    (hdrop : (sig.drop 32).take 32 = natToBytes 32 s')
    (hb : sig.getD 64 0 = 0 ∨ sig.getD 64 0 = 1)
    (hrx0 : rx ≠ 0) (hrxN : rx < Nsec)
    (hs0 : s' ≠ 0) (hsN : s' < Nsec)
    (X Y : Fsec) (hns : Wsec.Nonsingular X Y) (hXv : X.val = rx) (hY0 : Y ≠ 0)
    (hbpar : sig.getD 64 0 = Y.val % 2)
    (hres : pAddN
        (pMulN ((Nsec - beNat msg % Nsec) % Nsec * powMod rx (Nsec - 2) Nsec % Nsec) Gpt)
        (pMulN (s' * powMod rx (Nsec - 2) Nsec % Nsec) (some (rx, Y.val))) = some q) :
    recover msg sig = .ok (uncompressedEncode q) := by
  have hdec : decompressPoint ((2 + sig.getD 64 0) :: natToBytes 32 rx) =
      some (rx, Y.val) := by
    rw [← hXv, decompressPoint_eq X Y hns.1 hY0 (sig.getD 64 0) (by omega),
      if_pos hbpar]
  unfold recover
  rw [if_pos hmh, if_pos hlen]
  dsimp only []
  rw [if_pos hb, htake, hdrop,
    beNat_natToBytes 32 rx (lt_trans hrxN (by decide)),
    beNat_natToBytes 32 s' (lt_trans hsN (by decide)),
    if_neg (by push_neg; exact ⟨hrx0, by omega, hs0, by omega⟩)]
  rw [hdec]
  dsimp only []
  rw [hres]
/-- Master round-trip lemma: whenever `sign` succeeds and the produced
recovery id is 0 or 1, `recover` on the produced signature returns exactly
the uncompressed public key of the signing key. -/
theorem sign_recover_roundtrip (msg key ns sig : List ℕ)
    (hkb : ByteBounded key)
    (hsig : sign msg key ns = Except.ok sig)
    (hrec : sig.getD 64 0 < 2) :
    recover msg sig = derivePublicKey key false := by
  unfold sign at hsig
  by_cases hmh : isValidMessageHash msg = true
  swap
  · rw [if_neg hmh] at hsig
    exact Except.noConfusion hsig
  rw [if_pos hmh] at hsig
  by_cases hpk : isValidPrivateKey key = true
  swap
  · rw [if_neg hpk] at hsig
    exact Except.noConfusion hsig
  rw [if_pos hpk] at hsig
  obtain ⟨hklen, hd0, hdlt⟩ := (isValidPrivateKey_iff key hkb).mp hpk
  set z := beNat msg % Nsec with hz
  set dd := beNat key with hdd
  obtain ⟨kN, rx, ry, hk0, hklt, hmul, hr0, hs0, hsigeq⟩ :=
    signLoop_ok_elim z dd ns sig hsig
  have hzlt : z < Nsec := by
    rw [hz]
    exact Nat.mod_lt _ (by decide)
  have htP : toPt (kN • Gm) = some (rx, ry) := by
    rw [← toPt_pMulN, toPt_Gm]
    exact hmul
  obtain ⟨X, Y, hns, hPeq, hXv, hYv⟩ := point_of_toPt_some (kN • Gm) rx ry htP
  have hY0 : Y ≠ 0 := smul_y_ne_zero kN (Nat.pos_of_ne_zero hk0) hklt X Y hns hPeq
  have hrylt : ry < Psec := hYv ▸ ZMod.val_lt Y
  have hgd : sig.getD 64 0 =
      if Nsec / 2 < sOf z dd kN rx then recOf rx ry ^^^ 1 else recOf rx ry := by
    rw [hsigeq, SigOf_getD]
  have hbor : sig.getD 64 0 = recOf rx ry ∨ sig.getD 64 0 = recOf rx ry ^^^ 1 := by
    rw [hgd]
    split
    · exact Or.inr rfl
    · exact Or.inl rfl
  obtain ⟨hb2, hrecv⟩ := recOf_of_lt rx ry (sig.getD 64 0) hbor hrec
  have hrxN : rx < Nsec := by
    by_contra hge
    have h1 : rx % Nsec < Nsec := Nat.mod_lt rx (by decide)
    rw [hb2] at h1
    exact hge h1
  have hrx0 : rx ≠ 0 := by
    rw [hb2] at hr0
    exact hr0
  have hrN0 : natN rx ≠ 0 := fun hc => hrx0 ((natN_eq_zero_iff rx hrxN).mp hc)
  have hkN0 : natN kN ≠ 0 := fun hc => hk0 ((natN_eq_zero_iff kN hklt).mp hc)
  have hsOflt : sOf z dd kN rx < Nsec := Nat.mod_lt _ (by decide)
  have hsval : natN (sOf z dd kN rx) = (natN kN)⁻¹ * (natN z + natN rx * natN dd) := by
    unfold sOf
    rw [hb2, natN_mul, natN_mod, natN_inv kN hkN0]
    unfold natN
    push_cast
    ring
  have hu1 : natN ((Nsec - z) % Nsec * powMod rx (Nsec - 2) Nsec % Nsec) =
      -natN z * (natN rx)⁻¹ := by
    rw [natN_mul, natN_mod, natN_sub_of_le z (le_of_lt hzlt), natN_inv rx hrN0]
  have hlen65 : sig.length = 65 := by
    rw [hsigeq]
    exact SigOf_length z dd kN rx ry
  have htake : sig.take 32 = natToBytes 32 rx := by
    rw [hsigeq, SigOf_take, hb2]
  have hb01 : sig.getD 64 0 = 0 ∨ sig.getD 64 0 = 1 := by omega
  have hdne : toPt (dd • Gm) ≠ none := fun hc =>
    smul_Gm_ne_zero dd hd0 hdlt ((toPt_eq_none_iff _).mp hc)
  rcases htoPt : toPt (dd • Gm) with _ | q
  · exact absurd htoPt hdne
  have hder : derivePublicKey key false = .ok (uncompressedEncode q) := by
    unfold derivePublicKey
    rw [if_pos hpk, ← hdd]
    have hp : pMulN dd Gpt = some q := by
      rw [← toPt_Gm, toPt_pMulN]
      exact htoPt
    rw [hp]
    rfl
  rw [hder]
  by_cases hhalf : Nsec / 2 < sOf z dd kN rx
  · -- low-s flip: recover works against the negated nonce point
    have hb' : sig.getD 64 0 = ry % 2 ^^^ 1 := by
      rw [hgd, if_pos hhalf, hrecv]
    have hdrop : (sig.drop 32).take 32 = natToBytes 32 (Nsec - sOf z dd kN rx) := by
      rw [hsigeq, SigOf_drop, if_pos hhalf]
    have hs'0 : Nsec - sOf z dd kN rx ≠ 0 := Nat.sub_ne_zero_of_lt hsOflt
    have hs'N : Nsec - sOf z dd kN rx < Nsec := by
      have hN0 : 0 < Nsec := by decide
      omega
    have hns' : Wsec.Nonsingular X (Wsec.negY X Y) := Wsec.nonsingular_neg hns
    have hY'0 : Wsec.negY X Y ≠ 0 := by
      rw [Wsec_negY]
      exact neg_ne_zero.mpr hY0
    have hY'v : (Wsec.negY X Y).val = Psec - ry := by
      rw [Wsec_negY, val_neg_eq Y hY0, hYv]
    have hbpar : sig.getD 64 0 = (Wsec.negY X Y).val % 2 := by
      rw [hb', hY'v]
      exact (flip_parity ry hrylt).symm
    have hPneg : WeierstrassCurve.Affine.Point.some hns' = -(kN • Gm) := by
      rw [hPeq, WeierstrassCurve.Affine.Point.neg_some]
    have hgoal : ((Nsec - z) % Nsec * powMod rx (Nsec - 2) Nsec % Nsec) • Gm +
        ((Nsec - sOf z dd kN rx) * powMod rx (Nsec - 2) Nsec % Nsec) • (-(kN • Gm)) =
        dd • Gm := by
      rw [← neg_smul_Gm kN (le_of_lt hklt), ← mul_smul, ← add_smul]
      apply smul_Gm_congr
      rw [natN_linear, hu1, natN_mul,
        natN_sub_of_le (sOf z dd kN rx) (le_of_lt hsOflt), hsval,
        natN_sub_of_le kN (le_of_lt hklt), natN_inv rx hrN0]
      field_simp
      ring
    have hres : pAddN
        (pMulN ((Nsec - beNat msg % Nsec) % Nsec * powMod rx (Nsec - 2) Nsec % Nsec) Gpt)
        (pMulN ((Nsec - sOf z dd kN rx) * powMod rx (Nsec - 2) Nsec % Nsec)
          (some (rx, (Wsec.negY X Y).val))) = some q := by
      have h2 : (some (rx, (Wsec.negY X Y).val) : Option (ℕ × ℕ)) =
          toPt (WeierstrassCurve.Affine.Point.some hns') := by
        show _ = some (X.val, (Wsec.negY X Y).val)
        rw [hXv]
      rw [← hz, h2, ← toPt_Gm, toPt_pMulN, toPt_pMulN, ← toPt_add, hPneg, hgoal]
      exact htoPt
    exact recover_ok msg sig hmh rx (Nsec - sOf z dd kN rx) q hlen65 htake hdrop
      hb01 hrx0 hrxN hs'0 hs'N X (Wsec.negY X Y) hns' hXv hY'0 hbpar hres
  · -- no flip: recover works against the nonce point itself
    have hb' : sig.getD 64 0 = ry % 2 := by
      rw [hgd, if_neg hhalf, hrecv]
    have hdrop : (sig.drop 32).take 32 = natToBytes 32 (sOf z dd kN rx) := by
      rw [hsigeq, SigOf_drop, if_neg hhalf]
    have hbpar : sig.getD 64 0 = Y.val % 2 := by
      rw [hb', hYv]
    have hgoal : ((Nsec - z) % Nsec * powMod rx (Nsec - 2) Nsec % Nsec) • Gm +
        (sOf z dd kN rx * powMod rx (Nsec - 2) Nsec % Nsec) • (kN • Gm) =
        dd • Gm := by
      rw [← mul_smul, ← add_smul]
      apply smul_Gm_congr
      rw [natN_linear, hu1, natN_mul, hsval, natN_inv rx hrN0]
      field_simp
      ring
    have hres : pAddN
        (pMulN ((Nsec - beNat msg % Nsec) % Nsec * powMod rx (Nsec - 2) Nsec % Nsec) Gpt)
        (pMulN (sOf z dd kN rx * powMod rx (Nsec - 2) Nsec % Nsec)
          (some (rx, Y.val))) = some q := by
      have h2 : (some (rx, Y.val) : Option (ℕ × ℕ)) =
          toPt (WeierstrassCurve.Affine.Point.some hns) := by
        show _ = some (X.val, Y.val)
        rw [hXv]
      rw [← hz, h2, ← toPt_Gm, toPt_pMulN, toPt_pMulN, ← toPt_add, ← hPeq, hgoal]
      exact htoPt
    exact recover_ok msg sig hmh rx (sOf z dd kN rx) q hlen65 htake hdrop
      hb01 hrx0 hrxN hs0 hsOflt X Y hns hXv hY0 hbpar hres
/-! ### Claims C1 to C6: the secp256k1 surface -/

/-- C1: signing then recovering is the identity onto the uncompressed public
key: for a byte-bounded private key, whenever `sign` succeeds over the
abstracted RFC 6979 nonce stream and the produced recovery id is 0 or 1 (the
`Signature` invariant of the data model), `recover` on the produced signature
returns exactly `derivePublicKey k uncompressed`. -/
theorem C1_sign_recover_inverse (messageHash privateKey nonces sig : List ℕ)
    (hbytes : ByteBounded privateKey)
    (hok : sign messageHash privateKey nonces = Except.ok sig)
    (hrecId : sig.getD 64 0 < 2) :
    recover messageHash sig = derivePublicKey privateKey false :=
  sign_recover_roundtrip messageHash privateKey nonces sig hbytes hok hrecId

theorem C1_sign_recover_inverse_witness :
    recover (List.replicate 32 0)
        (natToBytes 32 Gx ++
          (natToBytes 32
            49406699829515835585165171676817695125914246082257878143895398939649188693383 ++
           [0])) =
      derivePublicKey (natToBytes 32 3) false :=
  C1_sign_recover_inverse (List.replicate 32 0) (natToBytes 32 3) [1]
    (natToBytes 32 Gx ++
      (natToBytes 32
        49406699829515835585165171676817695125914246082257878143895398939649188693383 ++
       [0]))
    ((byteBounded_iff _).mpr (by decide)) (by decide) (by decide)

/-- C2: `isValidPrivateKey` accepts exactly the 32-byte big-endian encodings
of scalars in `(0, Nsec)`: false for the all-zero key, true for 1 and
`Nsec - 1`, false for `Nsec`, false for 31- and 33-byte inputs. -/
theorem C2_isValidPrivateKey_boundary (k : List ℕ) (hk : ByteBounded k) :
    (isValidPrivateKey k = true ↔ k.length = 32 ∧ 0 < beNat k ∧ beNat k < Nsec) ∧
    isValidPrivateKey (List.replicate 32 0) = false ∧
    isValidPrivateKey (natToBytes 32 1) = true ∧
    isValidPrivateKey (natToBytes 32 (Nsec - 1)) = true ∧
    isValidPrivateKey (natToBytes 32 Nsec) = false ∧
    isValidPrivateKey (List.replicate 31 1) = false ∧
    isValidPrivateKey (List.replicate 33 1) = false :=
  ⟨isValidPrivateKey_iff k hk, by decide, by decide, by decide, by decide,
   by decide, by decide⟩

theorem C2_isValidPrivateKey_boundary_witness :
    isValidPrivateKey (natToBytes 32 7) = true :=
  ((C2_isValidPrivateKey_boundary (natToBytes 32 7)
      ((byteBounded_iff _).mpr (by decide))).1).mpr ⟨by decide, by decide, by decide⟩

/-- C3: `recover` rejects a non-32-byte message hash with
`InvalidMessageHash`, then a non-65-byte signature with `InvalidSignature`,
then a recovery byte other than 0 or 1 with `InvalidSignatureRecovery`, in
that order and before any curve computation; every successful result is a
65-byte key with prefix 4. -/
theorem C3_recover_errors (messageHash sig : List ℕ) :
    (messageHash.length ≠ 32 →
      recover messageHash sig = Except.error SdkError.InvalidMessageHash) ∧
    (messageHash.length = 32 → sig.length ≠ 65 →
      recover messageHash sig = Except.error SdkError.InvalidSignature) ∧
    (messageHash.length = 32 → sig.length = 65 →
      sig.getD 64 0 ≠ 0 → sig.getD 64 0 ≠ 1 →
      recover messageHash sig = Except.error SdkError.InvalidSignatureRecovery) ∧
    (∀ pk, recover messageHash sig = Except.ok pk →
      pk.length = 65 ∧ pk.headD 0 = 4) := by
  refine ⟨?_, ?_, ?_, ?_⟩
  · intro hm
    unfold recover
    rw [if_neg (by simpa [isValidMessageHash] using hm)]
  · intro hm hs
    unfold recover
    rw [if_pos (by simpa [isValidMessageHash] using hm), if_neg hs]
  · intro hm hs h0 h1
    unfold recover
    rw [if_pos (by simpa [isValidMessageHash] using hm), if_pos hs]
    dsimp only []
    rw [if_neg (by push_neg; exact ⟨h0, h1⟩)]
  · intro pk hok
    unfold recover at hok
    dsimp only [] at hok
    repeat' split at hok
    all_goals first
      | exact Except.noConfusion hok
      | (have hpk := (Except.ok.inj hok).symm
         subst hpk
         exact ⟨by simp [uncompressedEncode, natToBytes_length], rfl⟩)

theorem C3_recover_errors_witness :
    recover [] [] = Except.error SdkError.InvalidMessageHash :=
  (C3_recover_errors [] []).1 (by decide)

/-- C4: `sign` rejects a non-32-byte hash with `InvalidMessageHash`, then an
invalid private key with `InvalidPrivateKey`, the hash check first; every
produced signature is the 65-byte layout `r ‖ s ‖ recovery` of two 32-byte
big-endian words and one recovery byte. -/
theorem C4_sign_errors (messageHash k nonces : List ℕ) :
    (messageHash.length ≠ 32 →
      sign messageHash k nonces = Except.error SdkError.InvalidMessageHash) ∧
    (messageHash.length = 32 → isValidPrivateKey k = false →
      sign messageHash k nonces = Except.error SdkError.InvalidPrivateKey) ∧
    (∀ sig, sign messageHash k nonces = Except.ok sig →
      ∃ r s rec, sig = natToBytes 32 r ++ (natToBytes 32 s ++ [rec]) ∧
        sig.length = 65) := by
  refine ⟨?_, ?_, ?_⟩
  · intro hm
    unfold sign
    rw [if_neg (by simpa [isValidMessageHash] using hm)]
  · intro hm hv
    unfold sign
    rw [if_pos (by simpa [isValidMessageHash] using hm), if_neg (by simp [hv])]
  · intro sig hok
    unfold sign at hok
    by_cases hmh : isValidMessageHash messageHash = true
    swap
    · rw [if_neg hmh] at hok
      exact Except.noConfusion hok
    rw [if_pos hmh] at hok
    by_cases hpk : isValidPrivateKey k = true
    swap
    · rw [if_neg hpk] at hok
      exact Except.noConfusion hok
    rw [if_pos hpk] at hok
    obtain ⟨kN, rx, ry, h1, h2, h3, h4, h5, hsigeq⟩ :=
      signLoop_ok_elim (beNat messageHash % Nsec) (beNat k) nonces sig hok
    have hlen : sig.length = 65 := by
      rw [hsigeq]
      exact SigOf_length _ _ _ _ _
    by_cases hhalf : Nsec / 2 < sOf (beNat messageHash % Nsec) (beNat k) kN rx
    · refine ⟨rx % Nsec, Nsec - sOf (beNat messageHash % Nsec) (beNat k) kN rx,
        recOf rx ry ^^^ 1, ?_, hlen⟩
      rw [hsigeq]
      unfold SigOf
      split
      · rfl
      · exact absurd hhalf (by assumption)
    · refine ⟨rx % Nsec, sOf (beNat messageHash % Nsec) (beNat k) kN rx,
        recOf rx ry, ?_, hlen⟩
      rw [hsigeq]
      unfold SigOf
      split
      · exact absurd (by assumption) hhalf
      · rfl

theorem C4_sign_errors_witness :
    sign [] (natToBytes 32 3) [] = Except.error SdkError.InvalidMessageHash :=
  (C4_sign_errors [] (natToBytes 32 3) []).1 (by decide)

/-- C5 (amended): `compressPublicKey` never fails: an input whose first byte
is 4 is re-encoded in compressed form, and every other input — malformed
encodings included — is returned unchanged. -/
theorem C5_compressPublicKey_passthrough (pk : List ℕ) (h : pk.head? ≠ some 4) :
    compressPublicKey pk = pk := by
  unfold compressPublicKey
  rw [if_neg h]

/-- C5 counterexample: the one-byte input `[0]` is neither a valid compressed
nor a valid uncompressed point encoding, yet `compressPublicKey` returns a
value — the input unchanged — instead of failing. -/
theorem C5_compressPublicKey_counterexample : compressPublicKey [0] = [0] := by
  decide

theorem C5_compressPublicKey_passthrough_witness :
    compressPublicKey [2, 2, 2] = [2, 2, 2] :=
  C5_compressPublicKey_passthrough [2, 2, 2] (by decide)

/-- C6: `derivePublicKey` rejects invalid keys with `InvalidPrivateKey`; for
every valid key it returns the scalar multiple of the base point, encoded as
33 bytes with prefix 2 or 3 when compressed, 65 bytes with prefix 4 when
uncompressed. -/
theorem C6_derivePublicKey_spec (k : List ℕ) (hkb : ByteBounded k) :
    (∀ c, isValidPrivateKey k = false →
      derivePublicKey k c = Except.error SdkError.InvalidPrivateKey) ∧
    (isValidPrivateKey k = true → ∃ pt,
      toPt (beNat k • Gm) = some pt ∧
      derivePublicKey k true = Except.ok (compressedEncode pt) ∧
      (compressedEncode pt).length = 33 ∧
      ((compressedEncode pt).headD 0 = 2 ∨ (compressedEncode pt).headD 0 = 3) ∧
      derivePublicKey k false = Except.ok (uncompressedEncode pt) ∧
      (uncompressedEncode pt).length = 65 ∧
      (uncompressedEncode pt).headD 0 = 4) := by
  constructor
  · intro c hv
    unfold derivePublicKey
    rw [if_neg (by simp [hv])]
  · intro hv
    obtain ⟨hklen, hd0, hdlt⟩ := (isValidPrivateKey_iff k hkb).mp hv
    have hdne : toPt (beNat k • Gm) ≠ none := fun hc =>
      smul_Gm_ne_zero (beNat k) hd0 hdlt ((toPt_eq_none_iff _).mp hc)
    rcases htoPt : toPt (beNat k • Gm) with _ | pt
    · exact absurd htoPt hdne
    have hp : pMulN (beNat k) Gpt = some pt := by
      rw [← toPt_Gm, toPt_pMulN]
      exact htoPt
    refine ⟨pt, rfl, ?_, ?_, ?_, ?_, ?_, ?_⟩
    · unfold derivePublicKey
      rw [if_pos hv, hp]
      rfl
    · simp [compressedEncode, natToBytes_length]
    · show 2 + pt.2 % 2 = 2 ∨ 2 + pt.2 % 2 = 3
      omega
    · unfold derivePublicKey
      rw [if_pos hv, hp]
      rfl
    · simp [uncompressedEncode, natToBytes_length]
    · rfl

theorem C6_derivePublicKey_spec_witness :
    derivePublicKey [] true = Except.error SdkError.InvalidPrivateKey :=
  (C6_derivePublicKey_spec [] ((byteBounded_iff _).mpr (by decide))).1 true
    (by decide)
/-! ### Mnemonic decoding (spec-modelled)

The repository's `mnemonic`/`hdnode` sources are not under `src/` (only their
unit tests are), so the decoder below is modelled from the spec. -/

/-- Modelled from the spec: the five admissible mnemonic word counts
(§3, §4.1); the repository's mnemonic source is not under `src/`. -/
def allowedWordCounts : List ℕ := [12, 15, 18, 21, 24]

/-- Modelled from the spec: position of a word in the fixed word list
(§6: "a fixed 2048-entry word list"), `none` when the word is absent. -/
def wordIndex (wordlist : List String) (w : String) : Option ℕ :=
  match wordlist with
  | [] => none
  | v :: vs => if v = w then some 0 else (wordIndex vs w).map (· + 1)

/-- Modelled from the spec: the 11-bit (or `w`-bit) big-endian bit
decomposition used to pack word indices (§4.1). -/
def bitsOfNat (w i : ℕ) : List ℕ :=
  (List.range w).map fun j => i / 2 ^ (w - 1 - j) % 2

/-- Modelled from the spec: regrouping of a bit stream into bytes (§4.1);
a trailing group shorter than 8 bits is dropped. -/
def bytesOfBits : List ℕ → List ℕ
  | b7 :: b6 :: b5 :: b4 :: b3 :: b2 :: b1 :: b0 :: rest =>
    (b7 * 128 + b6 * 64 + b5 * 32 + b4 * 16 + b3 * 8 + b2 * 4 + b1 * 2 + b0) ::
      bytesOfBits rest
  | _ => []

/-- Modelled from the spec: the indices of all phrase words in the word
list, `none` as soon as one word is absent (§4.1). -/
def phraseIndices (wordlist : List String) : List String → Option (List ℕ)
  | [] => some []
  | w :: ws =>
    match wordIndex wordlist w, phraseIndices wordlist ws with
    | some i, some is => some (i :: is)
    | _, _ => none

/-- Modelled from the spec: mnemonic decoding (§4.1, §3): the word count must
be one of the five admissible values and every word must be in the list, else
the decode fails with the mnemonic error; otherwise the 11-bit words are
concatenated, the first `11·n − n/3` bits are the entropy bytes and the last
`n/3` bits the embedded checksum. -/
def mnemonicToEntropy (wordlist ws : List String) :
    Except SdkError (List ℕ × List ℕ) :=
  if ws.length ∈ allowedWordCounts then
    match phraseIndices wordlist ws with
    | none => .error .InvalidHDNodeMnemonic
    | some is =>
      let bits := (is.map (bitsOfNat 11)).join
      let csLen := ws.length * 11 / 33
      .ok (bytesOfBits (bits.take (ws.length * 11 - csLen)),
           bits.drop (ws.length * 11 - csLen))
  else .error .InvalidHDNodeMnemonic

/-- Modelled from the spec: the recomputed checksum — the first `csLen` bits
of the external hash collaborator applied to the entropy (§4.1; the hash
itself is an opaque collaborator, abstracted as the parameter `hash`). -/
def mnemonicChecksum (hash : List ℕ → List ℕ) (entropy : List ℕ)
    (csLen : ℕ) : List ℕ :=
  ((hash entropy).map (bitsOfNat 8)).join.take csLen

/-- Modelled from the spec: `mnemonic.isValid` (§4.1): recompute the checksum
from the decoded entropy and compare; a failed decode yields `false` rather
than an error. -/
def mnemonicIsValid (hash : List ℕ → List ℕ) (wordlist ws : List String) :
    Bool :=
  match mnemonicToEntropy wordlist ws with
  | .error _ => false
  | .ok (entropy, csBits) =>
    mnemonicChecksum hash entropy (ws.length * 11 / 33) == csBits

/-- Modelled from the spec: the diagnostic rendering of each error kind (§7):
a fixed operation name and description, never echoing input material. -/
def errorText : SdkError → List String
  | SdkError.InvalidMessageHash => ["secp256k1.sign:", "invalid", "message", "hash"]
  | SdkError.InvalidPrivateKey => ["secp256k1.derivePublicKey:", "invalid", "private", "key"]
  | SdkError.InvalidSignature => ["secp256k1.recover:", "invalid", "signature"]
  | SdkError.InvalidSignatureRecovery =>
    ["secp256k1.recover:", "invalid", "signature", "recovery"]
  | SdkError.InvalidHDNode => ["HDNode.deriveChild:", "invalid", "HD", "node"]
  | SdkError.InvalidHDNodeMnemonic =>
    ["HDNode.fromMnemonic:", "invalid", "mnemonic", "words", "given", "as", "input"]
  | SdkError.InvalidDataType => ["Hex.of:", "not", "a", "valid", "expression"]
  | SdkError.LibraryError => ["library", "error"]

/-- C7 (amended): the error raised for an invalid phrase is always
`InvalidHDNodeMnemonic`, whose rendering is a fixed constant independent of
the supplied words; hence a supplied word occurs in the error text only by
coinciding with one of the fixed diagnostic tokens, never by being echoed. -/
theorem C7_mnemonic_error_fixed (wordlist ws : List String) (e : SdkError)
    (he : mnemonicToEntropy wordlist ws = Except.error e) :
    errorText e = errorText SdkError.InvalidHDNodeMnemonic ∧
    ∀ w ∈ ws, w ∉ errorText SdkError.InvalidHDNodeMnemonic →
      w ∉ errorText e := by
  have he' : e = SdkError.InvalidHDNodeMnemonic := by
    unfold mnemonicToEntropy at he
    by_cases hc : ws.length ∈ allowedWordCounts
    · rw [if_pos hc] at he
      rcases hidx : phraseIndices wordlist ws with _ | is <;> rw [hidx] at he
      · exact (Except.error.inj he).symm
      · exact Except.noConfusion he
    · rw [if_neg hc] at he
      exact (Except.error.inj he).symm
  subst he'
  exact ⟨rfl, fun w _ hnot => hnot⟩

theorem C7_mnemonic_error_fixed_witness :
    "abc" ∉ errorText SdkError.InvalidHDNodeMnemonic :=
  (C7_mnemonic_error_fixed [] ["abc"] SdkError.InvalidHDNodeMnemonic
      (by decide)).2 "abc" (by decide) (by decide)

/-- C7 counterexample: the invalid two-word phrase `["invalid", "mnemonic"]`
is rejected with `InvalidHDNodeMnemonic`, whose fixed rendering contains the
supplied word `"mnemonic"` verbatim — so the claim as stated (no word of the
input phrase ever appears as a token of the error text) fails. -/
theorem C7_mnemonic_leak_counterexample :
    mnemonicToEntropy [] ["invalid", "mnemonic"] =
      Except.error SdkError.InvalidHDNodeMnemonic ∧
    "mnemonic" ∈ errorText SdkError.InvalidHDNodeMnemonic := by decide

/-- C10: `mnemonicIsValid` is a total boolean predicate: every failed decode
— wrong word count, a word outside the list — yields `false` rather than an
error, and on a successful decode it is `true` exactly when the recomputed
checksum of the decoded entropy equals the checksum embedded in the
phrase. -/
theorem C10_mnemonic_isValid (hash : List ℕ → List ℕ)
    (wordlist ws : List String) :
    (∀ e, mnemonicToEntropy wordlist ws = Except.error e →
      mnemonicIsValid hash wordlist ws = false) ∧
    (∀ entropy csBits,
      mnemonicToEntropy wordlist ws = Except.ok (entropy, csBits) →
      (mnemonicIsValid hash wordlist ws = true ↔
        mnemonicChecksum hash entropy (ws.length * 11 / 33) = csBits)) := by
  constructor
  · intro e he
    unfold mnemonicIsValid
    rw [he]
  · intro entropy csBits hok
    unfold mnemonicIsValid
    rw [hok]
    exact beq_iff_eq

theorem C10_mnemonic_isValid_witness :
    mnemonicIsValid (fun _ => [0]) [] ["hello world"] = false :=
  (C10_mnemonic_isValid (fun _ => [0]) [] ["hello world"]).1
    SdkError.InvalidHDNodeMnemonic (by decide)
/-! ### Hierarchical key tree (spec-modelled) -/

/-- Modelled from the spec: one immutable node of the hierarchical key tree
(§3, §4.3): an optional private scalar (absent for public-only nodes), the
public point in affine coordinates (`none` only for the point at infinity,
which never occurs in a valid node), and the chain code. The repository's
hdnode source is not under `src/`. -/
structure HDNodeM where
  privateKey : Option ℕ
  publicKey : Option (ℕ × ℕ)
  chainCode : List ℕ
  deriving DecidableEq

/-- Modelled from the spec: `deriveChild` (§4.3), with the HMAC-SHA512
collaborator abstracted as `hmac` (key, data ↦ bytes). A hardened index
(high bit set) requires the parent private key; a normal index keys the HMAC
by the chain code over the serialised public key and the 4-byte index. The
left 32 HMAC bytes give the scalar offset — added to the parent private key
mod the order, or offsetting the parent public point for public-only
derivation — and the right 32 bytes the child chain code; a zero or
overflowing scalar fails with `InvalidHDNode`. -/
def deriveChild (hmac : List ℕ → List ℕ → List ℕ) (node : HDNodeM)
    (index : ℕ) : Except SdkError HDNodeM :=
  if 2 ^ 31 ≤ index then
    match node.privateKey with
    | none => .error .InvalidHDNode
    | some d =>
      let I := hmac node.chainCode (0 :: (natToBytes 32 d ++ natToBytes 4 index))
      let il := beNat (I.take 32)
      let cc := (I.drop 32).take 32
      if il = 0 ∨ Nsec ≤ il then .error .InvalidHDNode
      else
        let cd := (d + il) % Nsec
        if cd = 0 then .error .InvalidHDNode
        else .ok ⟨some cd, pMulN cd Gpt, cc⟩
  else
    match node.publicKey with
    | none => .error .InvalidHDNode
    | some pt =>
      let I := hmac node.chainCode (compressedEncode pt ++ natToBytes 4 index)
      let il := beNat (I.take 32)
      let cc := (I.drop 32).take 32
      if il = 0 ∨ Nsec ≤ il then .error .InvalidHDNode
      else
        match node.privateKey with
        | some d =>
          let cd := (d + il) % Nsec
          if cd = 0 then .error .InvalidHDNode
          else .ok ⟨some cd, pMulN cd Gpt, cc⟩
        | none =>
          match pAddN (pMulN il Gpt) (some pt) with
          | none => .error .InvalidHDNode
          | some cpt => .ok ⟨none, some cpt, cc⟩

/-- Modelled from the spec: derivation along an index sequence (§4.3 path
derivation), failing fast at the first failing step. -/
def deriveSeq (hmac : List ℕ → List ℕ → List ℕ) (node : HDNodeM) :
    List ℕ → Except SdkError HDNodeM
  | [] => .ok node
  | i :: is =>
    match deriveChild hmac node i with
    | .error e => .error e
    | .ok c => deriveSeq hmac c is

/-- One non-hardened derivation step: the private-capable node and the
public-only node with the same public point and chain code derive children
with the same public point and chain code, the public-only child carrying no
private key. -/
theorem deriveChild_consistent (hmac : List ℕ → List ℕ → List ℕ) (i : ℕ)
    (hi : i < 2 ^ 31) (d : ℕ) (hd0 : 0 < d) (hdn : d < Nsec) (cc : List ℕ)
    (P' : HDNodeM)
    (hP : deriveChild hmac ⟨some d, pMulN d Gpt, cc⟩ i = Except.ok P') :
    ∃ d' cc', 0 < d' ∧ d' < Nsec ∧ P' = ⟨some d', pMulN d' Gpt, cc'⟩ ∧
      deriveChild hmac ⟨none, pMulN d Gpt, cc⟩ i =
        Except.ok ⟨none, pMulN d' Gpt, cc'⟩ := by
  have hne : toPt (d • Gm) ≠ none := fun hc =>
    smul_Gm_ne_zero d hd0 hdn ((toPt_eq_none_iff _).mp hc)
  have hpm : pMulN d Gpt = toPt (d • Gm) := by rw [← toPt_Gm, toPt_pMulN]
  rcases hpt : toPt (d • Gm) with _ | pt
  · exact absurd hpt hne
  have hpm' : pMulN d Gpt = some pt := by rw [hpm, hpt]
  unfold deriveChild at hP
  rw [if_neg (by omega)] at hP
  dsimp only [] at hP
  rw [hpm'] at hP
  dsimp only [] at hP
  generalize hI : hmac cc (compressedEncode pt ++ natToBytes 4 i) = I at hP
  by_cases hil : beNat (I.take 32) = 0 ∨ Nsec ≤ beNat (I.take 32)
  · rw [if_pos hil] at hP
    exact Except.noConfusion hP
  rw [if_neg hil] at hP
  push_neg at hil
  by_cases hcd : (d + beNat (I.take 32)) % Nsec = 0
  · rw [if_pos hcd] at hP
    exact Except.noConfusion hP
  rw [if_neg hcd] at hP
  have hcd0 : 0 < (d + beNat (I.take 32)) % Nsec := Nat.pos_of_ne_zero hcd
  have hcdn : (d + beNat (I.take 32)) % Nsec < Nsec := Nat.mod_lt _ (by decide)
  have hqne : toPt (((d + beNat (I.take 32)) % Nsec) • Gm) ≠ none := fun hc =>
    smul_Gm_ne_zero _ hcd0 hcdn ((toPt_eq_none_iff _).mp hc)
  rcases hq : toPt (((d + beNat (I.take 32)) % Nsec) • Gm) with _ | q
  · exact absurd hq hqne
  have hcdpt : pMulN ((d + beNat (I.take 32)) % Nsec) Gpt = some q := by
    rw [← toPt_Gm, toPt_pMulN, hq]
  refine ⟨(d + beNat (I.take 32)) % Nsec, (I.drop 32).take 32, hcd0, hcdn,
    (Except.ok.inj hP).symm, ?_⟩
  have hadd : pAddN (pMulN (beNat (I.take 32)) Gpt) (some pt) = some q := by
    rw [← hpt, ← toPt_Gm, toPt_pMulN, ← toPt_add, ← add_smul,
      Nat.add_comm (beNat (I.take 32)) d, ← smul_Gm_mod (d + beNat (I.take 32))]
    exact hq
  unfold deriveChild
  rw [if_neg (by omega)]
  dsimp only []
  rw [hpm']
  dsimp only []
  rw [hI, if_neg (by push_neg; exact hil), hadd]
  dsimp only []
  rw [hcdpt]

/-- C8: along every non-hardened index sequence, the public-only node built
from the parent's public point and chain code derives, at every index, a
child with the same public key as the private-capable node, and that child
carries no private key. -/
theorem C8_public_private_consistency (hmac : List ℕ → List ℕ → List ℕ)
    (is : List ℕ) :
    ∀ d cc P', (∀ i ∈ is, i < 2 ^ 31) → 0 < d → d < Nsec →
      deriveSeq hmac ⟨some d, pMulN d Gpt, cc⟩ is = Except.ok P' →
      deriveSeq hmac ⟨none, pMulN d Gpt, cc⟩ is =
        Except.ok ⟨none, P'.publicKey, P'.chainCode⟩ := by
  induction is with
  | nil =>
    intro d cc P' his hd0 hdn hP
    have hP' : (⟨some d, pMulN d Gpt, cc⟩ : HDNodeM) = P' := Except.ok.inj hP
    rw [← hP']
    rfl
  | cons i is ih =>
    intro d cc P' his hd0 hdn hP
    have hi : i < 2 ^ 31 := his i (by simp)
    rw [deriveSeq] at hP
    rcases hstep : deriveChild hmac ⟨some d, pMulN d Gpt, cc⟩ i with e | C
    · rw [hstep] at hP
      exact Except.noConfusion hP
    rw [hstep] at hP
    dsimp only [] at hP
    obtain ⟨d', cc', hd'0, hd'n, hCeq, hQstep⟩ :=
      deriveChild_consistent hmac i hi d hd0 hdn cc C hstep
    subst hCeq
    rw [deriveSeq, hQstep]
    dsimp only []
    exact ih d' cc' P' (fun j hj => his j (by simp [hj])) hd'0 hd'n hP

theorem C8_public_private_consistency_witness :
    deriveSeq (fun _ _ => natToBytes 32 1 ++ List.replicate 32 0)
        ⟨none, pMulN 1 Gpt, []⟩ [0] =
      Except.ok ⟨none, pMulN 2 Gpt, List.replicate 32 0⟩ :=
  C8_public_private_consistency (fun _ _ => natToBytes 32 1 ++ List.replicate 32 0)
    [0] 1 [] ⟨some 2, pMulN 2 Gpt, List.replicate 32 0⟩ (by decide) (by decide)
    (by decide) (by decide)
/-! ### Hex expression parsing and `Address.of` -/

/-- Modelled from the spec: the value of one hexadecimal digit character
(§3, §9: the layered hex value representation; the repository's `Hex` and
`HexInt` sources are not under `src/`). -/
def hexDigit (c : Char) : Option ℕ :=
  if '0' ≤ c ∧ c ≤ '9' then some (c.toNat - 48)
  else if 'a' ≤ c ∧ c ≤ 'f' then some (c.toNat - 87)
  else if 'A' ≤ c ∧ c ≤ 'F' then some (c.toNat - 55)
  else none

/-- Modelled from the spec: the digit values of a hexadecimal string, `none`
as soon as one character is not a hexadecimal digit. -/
def parseHexDigits : List Char → Option (List ℕ)
  | [] => some []
  | c :: cs =>
    match hexDigit c, parseHexDigits cs with
    | some d, some ds => some (d :: ds)
    | _, _ => none

/-- Modelled from the spec: `HexInt.of` on a string expression (§9 design
notes): an optional leading minus sign, the `0x` prefix, then hexadecimal
digits; yields the sign and the digit values, failing with `InvalidDataType`
otherwise. -/
def hexIntOf (s : List Char) : Except SdkError (Bool × List ℕ) :=
  match s with
  | '-' :: '0' :: 'x' :: rest =>
    match parseHexDigits rest with
    | some ds => .ok (true, ds)
    | none => .error .InvalidDataType
  | '0' :: 'x' :: rest =>
    match parseHexDigits rest with
    | some ds => .ok (false, ds)
    | none => .error .InvalidDataType
  | _ => .error .InvalidDataType

/-- Embedding of `HexUInt.of` of `HexUInt.ts`: the constructor accepts the
parsed value when its sign is non-negative and throws `InvalidDataType`
otherwise; no other validation is added. -/
def hexUIntOf (s : List Char) : Except SdkError (List ℕ) :=
  match hexIntOf s with
  | .error e => .error e
  | .ok (neg, ds) => if neg then .error .InvalidDataType else .ok ds

/-- Embedding of `Address.of` of `Address.ts`: the error-intercepted
constructor delegates to `HexUInt.of` and adds no validation of its own —
in particular no check that the expression denotes 20 bytes. -/
def addressOf (s : List Char) : Except SdkError (List ℕ) := hexUIntOf s

/-- C9: code bug. `Address.of` accepts the 3-byte expression `0xcaffee`
(6 hex digits, not 40) and returns an address value, while the repository's
own unit test and the spec's 20-byte `Address` invariant expect an
`InvalidDataType` failure; only the sign is ever validated, as the accepted
positive and rejected negative forms show. -/
theorem C9_addressOf_not_20_bytes :
    addressOf "0xcaffee".toList = Except.ok [12, 10, 15, 15, 14, 14] ∧
    addressOf "-0xcaffee".toList = Except.error SdkError.InvalidDataType ∧
    [12, 10, 15, 15, 14, 14].length ≠ 40 := by decide
